import Mathlib

/-!
Verification of the Result Ingestion & Deduplication Pipeline of the
ResearchAgent repository.

The development shallowly embeds the Python sources:

* `src/tools/search_tools.py` — the fuzzy-similarity primitive
  (`difflib.SequenceMatcher.ratio` on lower-cased strings, threshold 0.85),
  `fuzzy_match` and `is_duplicate`;
* `src/database/db.py` — the SQLite entity store (`insert_startup`,
  `get_all_startups`, `get_startups_by_tier`, `insert_run_metadata`,
  `get_latest_run`) as a state machine with explicit availability flags;
* `src/crew_orchestration.py` — `parse_startup_data`, the annotation merge
  and hash assignment of `_process_and_save_results`, and the aggregation
  of run statistics.

Machine floats are modelled by `ℚ` (every ratio produced by the code is a
small rational and the spec compares ratios for equality and against the
literal threshold 0.85, which is exact at every boundary exercised here).
Python builtin `hash` is kept as an explicit function parameter
`pyHash : String → Int`, because the pipeline's stored hash is whatever
`hash(name)` returns; every theorem about it holds for an arbitrary such
function.
-/

/-! ### difflib.SequenceMatcher, specialised to `SequenceMatcher(None, a, b)`

Faithful embedding of CPython `difflib` for the call made by
`fuzzy_match` (`search_tools.py` lines 130-133): `isjunk = None`, so the
junk set `bjunk` is empty, and `autojunk = True`, so for `len(b) >= 200`
the indices of popular elements are purged from `b2j`.  Sequences are
`List Char` (the lower-cased text).  The two junk-extension `while` loops
of `find_longest_match` are guarded by membership in the empty `bjunk`
and can never run, so they are not modelled. -/

/-- All indices `j` with `b[j] = c`, ascending — the list `b2j[c]` that
`__chain_b` builds by appending indices in order. -/
def positions (b : List Char) (c : Char) : List Nat :=
  (List.range b.length).filter (fun j => decide (b[j]? = some c))

/-- The autojunk test of `__chain_b`: with `n = len(b) >= 200`, an element
is popular when it occurs more than `n // 100 + 1` times; popular elements
are removed from `b2j`. -/
def isPopular (b : List Char) (c : Char) : Bool :=
  decide (200 ≤ b.length) && decide (b.length / 100 + 1 < (positions b c).length)

/-- Model of `b2j.get(c, [])` after `__chain_b` finished purging popular elements. -/
def b2jGet (b : List Char) (c : Char) : List Nat :=
  if isPopular b c then [] else positions b c

/-- Inner loop of `find_longest_match` over the candidate list
`b2j.get(a[i], [])` (already restricted to `blo <= j < bhi`, which the
Python code does with `continue`/`break` on the ascending index list).
State: the fresh row table `newj2len` and the best triple so far.
`j2len.get(j-1, 0)` is `f (j-1)`, with the Python key `-1` (absent from
any dict) handled by the `j = 0` case. -/
def flmInner (f : Nat → Nat) (i : Nat) :
    List Nat → (Nat → Nat) → (Nat × Nat × Nat) → ((Nat → Nat) × (Nat × Nat × Nat))
  | [], acc, best => (acc, best)
  | j :: js, acc, best =>
      let k := (if j = 0 then 0 else f (j - 1)) + 1
      let acc2 := fun j2 => if j2 = j then k else acc j2
      let best2 := if best.2.2 < k then (i + 1 - k, j + 1 - k, k) else best
      flmInner f i js acc2 best2

/-- Outer loop of `find_longest_match` over `i in range(alo, ahi)`; the
rows are passed as an explicit list `List.range' alo (ahi - alo)`.  Each
row starts a fresh `newj2len` and the finished row becomes `j2len`. -/
def flmOuter (a b : List Char) (blo bhi : Nat) :
    List Nat → (Nat → Nat) → (Nat × Nat × Nat) → (Nat × Nat × Nat)
  | [], _, best => best
  | i :: rest, f, best =>
      let js := (b2jGet b (a.getD i ' ')).filter (fun j => decide (blo ≤ j) && decide (j < bhi))
      let r := flmInner f i js (fun _ => 0) best
      flmOuter a b blo bhi rest r.1 r.2

/-- First extension loop of `find_longest_match`: grow the block to the
left while `besti > alo and bestj > blo and a[besti-1] == b[bestj-1]`
(the `not isbjunk(...)` conjunct is vacuous, `bjunk` being empty).
Structural recursion on `besti`. -/
def extendLeft (a b : List Char) (alo blo : Nat) : Nat → Nat → Nat → Nat × Nat × Nat
  | 0, j, k => (0, j, k)
  | i + 1, j, k =>
      if alo < i + 1 ∧ blo < j ∧ a.getD i ' ' = b.getD (j - 1) ' ' then
        extendLeft a b alo blo i (j - 1) (k + 1)
      else (i + 1, j, k)

/-- Second extension loop: grow to the right while
`besti+bestsize < ahi and bestj+bestsize < bhi and a[...] == b[...]`.
The fuel `d` counts `ahi - (besti + bestsize)`, so `d = 0` is exactly the
failure of the first conjunct. -/
def extendRightAux (a b : List Char) (bhi i j : Nat) : Nat → Nat → Nat
  | 0, k => k
  | d + 1, k =>
      if j + k < bhi ∧ a.getD (i + k) ' ' = b.getD (j + k) ' ' then
        extendRightAux a b bhi i j d (k + 1)
      else k

def extendRight (a b : List Char) (ahi bhi i j k : Nat) : Nat :=
  extendRightAux a b bhi i j (ahi - (i + k)) k

/-- Model of `find_longest_match(alo, ahi, blo, bhi)`: the dynamic-programming scan
starting from `besti, bestj, bestsize = alo, blo, 0`, then the two
non-junk extension loops. -/
def findLongestMatch (a b : List Char) (alo ahi blo bhi : Nat) : Nat × Nat × Nat :=
  let dp := flmOuter a b blo bhi (List.range' alo (ahi - alo)) (fun _ => 0) (alo, blo, 0)
  let el := extendLeft a b alo blo dp.1 dp.2.1 dp.2.2
  (el.1, el.2.1, extendRight a b ahi bhi el.1 el.2.1 el.2.2)

/-- Total size of all matching blocks, i.e.
`sum(size for _, _, size in get_matching_blocks())`: the queue in
`get_matching_blocks` splits each range at its longest match and recurses
on both sides; the processing order does not affect the sum, so the sum is
computed by direct recursion.  The fuel dominates `(ahi-alo)+(bhi-blo)`,
which shrinks strictly at every split (`flm_bounds` below), so it is never
exhausted from the top-level call. -/
def matchedSizeAux (a b : List Char) : Nat → Nat → Nat → Nat → Nat → Nat
  | 0, _, _, _, _ => 0
  | fuel + 1, alo, ahi, blo, bhi =>
      let r := findLongestMatch a b alo ahi blo bhi
      if r.2.2 = 0 then 0
      else
        r.2.2 + matchedSizeAux a b fuel alo r.1 blo r.2.1 +
          matchedSizeAux a b fuel (r.1 + r.2.2) ahi (r.2.1 + r.2.2) bhi

def matchedSize (a b : List Char) : Nat :=
  matchedSizeAux a b (a.length + b.length + 1) 0 a.length 0 b.length

/-- Model of `SequenceMatcher.ratio()`: `2.0 * matches / (len(a) + len(b))`, and
`1.0` when both sequences are empty (`_calculate_ratio`). -/
def ratioQ (a b : List Char) : ℚ :=
  if a.length + b.length = 0 then 1
  else 2 * (matchedSize a b : ℚ) / ((a.length : ℚ) + (b.length : ℚ))

/-- Model of `str.lower()` as a character list: ASCII case folding, which agrees
with Python on the ASCII names this repository handles. -/
def pyLower (s : String) : List Char :=
  s.toList.map Char.toLower

/-- The similarity the spec calls `similar(a, b)`: the ratio of the
lower-cased strings, as computed inside `fuzzy_match`
(`SequenceMatcher(None, str1.lower(), str2.lower()).ratio()`). -/
def similar (s1 s2 : String) : ℚ :=
  ratioQ (pyLower s1) (pyLower s2)

/-! ### search_tools.py: deduplication helpers -/

/-- Constant `DEDUPLICATION_THRESHOLD = 0.85` from `config/settings.py` line 67.
The float literal denotes the rational 85/100 (exact at every comparison
boundary reached by the ratios in this development). -/
def DEDUPLICATION_THRESHOLD : ℚ := 85 / 100

/-- Model of `fuzzy_match(str1, str2, threshold)` from `search_tools.py` lines
130-133: `SequenceMatcher(None, str1.lower(), str2.lower()).ratio() >=
threshold`. -/
def fuzzy_match (str1 str2 : String) (threshold : ℚ) : Bool :=
  decide (threshold ≤ similar str1 str2)

/-- One entry of the `existing_startups` list handed to `is_duplicate`: a
dict whose `name` key may be absent (`existing.get('name', '')`). -/
structure ExistingEntry where
  name : Option String
deriving DecidableEq

/-- Model of `is_duplicate(startup_name, existing_startups)` from `search_tools.py`
lines 136-142: scan the reference list and return `True` on the first
`fuzzy_match` hit at the default threshold, else `False`. -/
def is_duplicate (startup_name : String) (existing : List ExistingEntry) : Bool :=
  existing.any (fun e => fuzzy_match startup_name (e.name.getD "") DEDUPLICATION_THRESHOLD)

/-! ### crew_orchestration.py: tolerant JSON extraction

`parse_startup_data` (lines 45-80) mixes string tests (`startswith`),
`json.loads` and a bracket-matching regex.  The stdlib JSON parser is
modelled at the value level: `JValue` is the type of parsed Python JSON
values, and the outcomes of the two `json.loads` call sites and of the
`startswith`/`re.search` tests are the inputs of the embedded function.
A `JSONDecodeError` outcome is `none`. -/

/-- A parsed JSON value as Python produces it (`dict`s keep insertion
order; duplicate keys were already resolved last-wins by the parser). -/
inductive JValue where
  | null : JValue
  | bool (b : Bool) : JValue
  | num (q : ℚ) : JValue
  | str (s : String) : JValue
  | arr (l : List JValue) : JValue
  | obj (o : List (String × JValue)) : JValue

/-- Key lookup in a parsed dict (`data['k']` / `'k' in data`); keys of a
Python dict are unique, later entries win. -/
def jGet (o : List (String × JValue)) (k : String) : Option JValue :=
  o.foldl (fun acc p => if p.1 = k then some p.2 else acc) none

/-- The final `return startups if isinstance(startups, list) else []`
coercion, and the unwrapping of a value found under a wrapper key. -/
def asJList : JValue → List JValue
  | .arr l => l
  | _ => []

/-- Test used by the loop of `_process_and_save_results` (line 221):
`isinstance(startup, dict)`. -/
def isJObj : JValue → Bool
  | .obj _ => true
  | _ => false

/-- Outcome of the string-level processing that `parse_startup_data`
delegates to the Python stdlib: whether the stripped text starts with `[`
or `{`, the result of `json.loads(text)` (`none` on `JSONDecodeError`),
and the result of `re.search(r'\[.*\]|\x7b.*\x7d', text, re.DOTALL)`
followed by `json.loads` on the matched fragment (`none` when the regex
found nothing, `some none` when the fragment failed to parse). -/
structure ParseOutcome where
  startsWithBracket : Bool
  directParse : Option JValue
  regexParse : Option (Option JValue)

/-- Model of `parse_startup_data` from `crew_orchestration.py` lines 45-80.  The
direct branch tries the wrapper keys `startups`, `top_opportunities`,
`opportunities` in order and wraps a dict that has a `name` key as a
one-element list; the regex fallback branch tries only `startups` and
`top_opportunities` and wraps any other dict unconditionally.  A caught
`JSONDecodeError` leaves `startups = []`. -/
def parse_startup_data (t : ParseOutcome) : List JValue :=
  if t.startsWithBracket then
    match t.directParse with
    | none => []
    | some (.arr l) => l
    | some (.obj o) =>
        match jGet o "startups" with
        | some v => asJList v
        | none =>
          match jGet o "top_opportunities" with
          | some v => asJList v
          | none =>
            match jGet o "opportunities" with
            | some v => asJList v
            | none => if (jGet o "name").isSome then [JValue.obj o] else []
    | some _ => []
  else
    match t.regexParse with
    | none => []
    | some none => []
    | some (some v) =>
        match v with
        | .obj o =>
            match jGet o "startups" with
            | some w => asJList w
            | none =>
              match jGet o "top_opportunities" with
              | some w => asJList w
              | none => [JValue.obj o]
        | .arr l => l
        | _ => []

/-! ### crew_orchestration.py: merge and hash assignment

The per-record body of the insert loop of `_process_and_save_results`
(lines 219-258).  Python builtin `hash` (line 238, `'hash': hash(name)`)
is an explicit parameter `pyHash`: the embedding never fixes it, so every
theorem below holds for the real (per-process seeded) string hash.
Dict keys that are only conditionally added, or that are read both with
`in` and with `get`, are modelled two-level as `Option (Option _)`
(`none` = key absent, `some v` = key present with value `v`, where `v`
may itself be `none` = Python `None`). -/

/-- The value stored under `secondary_tiers`: the analysis stages emit
either a plain string or a list of strings (the two shapes
`insert_startup` distinguishes). -/
inductive SecTiers where
  | str (s : String) : SecTiers
  | list (l : List String) : SecTiers
deriving DecidableEq

/-- Python `x or y` on optional strings: `None` and `''` are falsy. -/
def pyOrStr : Option String → Option String → Option String
  | some s, b => if s = "" then b else some s
  | none, b => b

/-- Python truthiness of the merged `name` (`if not name: continue`). -/
def truthyStr : Option String → Bool
  | none => false
  | some s => decide (s ≠ "")

/-- One element of the parsed discovery output, as the insert loop reads
it.  Fields read only through `.get(k)` are one-level options; fields
whose key presence is tested with `in` are two-level. -/
structure RawStartup where
  name : Option String
  startup_name : Option String
  website : Option String
  url : Option String
  description : Option String
  category : Option String
  founded_date : Option String
  date : Option String
  country : Option String
  source : Option String
  source_url : Option String
  primary_tier : Option (Option String)
  secondary_tiers : Option SecTiers
  india_fit_score : Option (Option Int)
  india_fit_analysis : Option String
deriving DecidableEq

/-- A value of the tier map built by `extract_tier_info`: a dict read with
`.get('primary_tier')` / `.get('secondary_tiers')`. -/
structure TierEntry where
  primary_tier : Option String
  secondary_tiers : Option SecTiers
deriving DecidableEq

/-- A value of the fit map built by `extract_market_fit`: read with
`.get('score', 0)` (two-level: the `score` key may be present with value
`None`) and `.get('analysis')`. -/
structure FitEntry where
  score : Option (Option Int)
  analysis : Option String
deriving DecidableEq

/-- The `startup_data` dict assembled by lines 229-255, with the
conditionally-added annotation keys two-level. -/
structure OStartupData where
  name : String
  website : Option String
  description : Option String
  category : Option String
  founded_date : Option String
  country : Option String
  source : Option String
  source_url : Option String
  hash : Int
  primary_tier : Option (Option String)
  secondary_tiers : Option (Option SecTiers)
  india_fit_score : Option (Option Int)
  india_fit_analysis : Option (Option String)

/-- The per-record body of the insert loop (lines 220-255): skip records
without a truthy name, build the base dict (including `hash(name)`), then
attach tier info (tier map first, embedded `primary_tier` key second) and
fit info (fit map first, embedded `india_fit_score` key second).
`none` = the record was skipped before reaching `insert_startup`. -/
def buildStartupData (pyHash : String → Int)
    (tier_info : List (String × TierEntry)) (fit_info : List (String × FitEntry))
    (startup : RawStartup) : Option OStartupData :=
  match pyOrStr startup.name startup.startup_name with
  | none => none
  | some nm =>
    if nm = "" then none
    else
      let base : OStartupData :=
        { name := nm
          website := pyOrStr startup.website startup.url
          description := startup.description
          category := startup.category
          founded_date := pyOrStr startup.founded_date startup.date
          country := startup.country
          source := startup.source
          source_url := startup.source_url
          hash := pyHash nm
          primary_tier := none
          secondary_tiers := none
          india_fit_score := none
          india_fit_analysis := none }
      let withTier :=
        match tier_info.lookup nm with
        | some e =>
            { base with primary_tier := some e.primary_tier
                        secondary_tiers := some e.secondary_tiers }
        | none =>
          match startup.primary_tier with
          | some v =>
              { base with primary_tier := some v
                          secondary_tiers := some startup.secondary_tiers }
          | none => base
      let withFit :=
        match fit_info.lookup nm with
        | some e =>
            { withTier with
                india_fit_score := some (match e.score with
                  | some v => v
                  | none => some 0)
                india_fit_analysis := some e.analysis }
        | none =>
          match startup.india_fit_score with
          | some v =>
              { withTier with india_fit_score := some v
                              india_fit_analysis := some startup.india_fit_analysis }
          | none => withTier
      some withFit

/-! ### json.dumps on a list of strings

`insert_startup` serializes a `secondary_tiers` list with `json.dumps`
(`db.py` lines 97-100).  CPython `json.dumps` with default arguments uses
the separator `", "`, double-quotes every string and, with
`ensure_ascii=True`, keeps exactly the printable ASCII range 0x20-0x7e
(minus `"` and `\`) literal; known control characters get two-character
escapes, everything else a lowercase `\uXXXX` escape (a surrogate pair
above 0xFFFF). -/

/-- Lowercase hex digit, as `'\u%04x' % n` produces. -/
def hexDig (n : Nat) : Char :=
  if n < 10 then Char.ofNat (48 + n) else Char.ofNat (87 + n)

/-- Four lowercase hex digits of `n < 0x10000`. -/
def hex4 (n : Nat) : List Char :=
  [hexDig (n / 4096 % 16), hexDig (n / 256 % 16), hexDig (n / 16 % 16), hexDig (n % 16)]

/-- The escape of one character in `py_encode_basestring_ascii`. -/
def pyJsonEscapeChar (c : Char) : List Char :=
  if c = '"' then ['\\', '"']
  else if c = '\\' then ['\\', '\\']
  else if 0x20 ≤ c.toNat ∧ c.toNat ≤ 0x7e then [c]
  else if c.toNat = 8 then ['\\', 'b']
  else if c.toNat = 12 then ['\\', 'f']
  else if c = '\n' then ['\\', 'n']
  else if c = '\r' then ['\\', 'r']
  else if c = '\t' then ['\\', 't']
  else if c.toNat < 0x10000 then '\\' :: 'u' :: hex4 c.toNat
  else
    ('\\' :: 'u' :: hex4 (0xd800 + (c.toNat - 0x10000) / 1024)) ++
      ('\\' :: 'u' :: hex4 (0xdc00 + (c.toNat - 0x10000) % 1024))

def pyJsonEscape (s : String) : List Char :=
  s.toList.flatMap pyJsonEscapeChar

/-- The characters between the brackets of `json.dumps(l)`: each string
double-quoted and escaped, separated by the default separator `", "`. -/
def dumpsBody : List String → List Char
  | [] => []
  | s :: t => '"' :: pyJsonEscape s ++ '"' ::
      (if t.isEmpty then [] else ',' :: ' ' :: dumpsBody t)

/-- Model of `json.dumps(l)` for a Python list of strings. -/
def jsonDumps (l : List String) : String :=
  String.mk ('[' :: dumpsBody l ++ [']'])

/-- Value of a lowercase hex digit, as produced by `hexDig`; proof
infrastructure for the injectivity of `jsonDumps`. -/
def hexVal (c : Char) : Nat :=
  if c.toNat ≤ 57 then c.toNat - 48 else c.toNat - 87

/-- Decoder of one escaped character, inverse to `pyJsonEscapeChar`;
proof infrastructure for the injectivity of `jsonDumps`. -/
def unescChar : List Char → Option (Char × List Char)
  | [] => none
  | c :: rest =>
    if c = '\\' then
      match rest with
      | [] => none
      | d :: r =>
        if d = '"' then some ('"', r)
        else if d = '\\' then some ('\\', r)
        else if d = 'b' then some (Char.ofNat 8, r)
        else if d = 'f' then some (Char.ofNat 12, r)
        else if d = 'n' then some ('\n', r)
        else if d = 'r' then some ('\r', r)
        else if d = 't' then some ('\t', r)
        else if d = 'u' then
          match r with
          | h1 :: h2 :: h3 :: h4 :: r2 =>
            if 0xd800 ≤ hexVal h1 * 4096 + hexVal h2 * 256 + hexVal h3 * 16 + hexVal h4 ∧
                hexVal h1 * 4096 + hexVal h2 * 256 + hexVal h3 * 16 + hexVal h4 < 0xdc00 then
              match r2 with
              | e1 :: e2 :: g1 :: g2 :: g3 :: g4 :: r3 =>
                if e1 = '\\' ∧ e2 = 'u' then
                  some (Char.ofNat (0x10000 +
                    (hexVal h1 * 4096 + hexVal h2 * 256 + hexVal h3 * 16 + hexVal h4
                      - 0xd800) * 1024 +
                    (hexVal g1 * 4096 + hexVal g2 * 256 + hexVal g3 * 16 + hexVal g4
                      - 0xdc00)), r3)
                else none
              | _ => none
            else some (Char.ofNat
              (hexVal h1 * 4096 + hexVal h2 * 256 + hexVal h3 * 16 + hexVal h4), r2)
          | _ => none
        else none
    else some (c, rest)

/-! ### database/db.py: the SQLite entity store

The store is a state machine.  SQLite dynamic typing means a column can
hold an int or a text; the `hash` column receives Python ints from the
pipeline (`hash(name)`) and strings from the tests, so its value domain is
the sum `HVal`.  Failure modes are two explicit flags: `openable = false`
models `sqlite3.connect`/schema access raising (store missing or corrupt),
`writable = false` models write statements raising (disk full, locked
database).  Every `db.py` helper wraps its body in `try/except` and maps
any exception to `False`/`[]`/`None`, which the model mirrors; the
`with`-scoped connection of `get_db_connection` is released on every path,
so no state beyond the row lists survives a call.  `CURRENT_TIMESTAMP`
stamps are modelled by an insertion sequence number (the wall clock is
non-decreasing in insertion order; the one-second granularity of SQLite
timestamps cannot reorder rows below this resolution, and no claim
depends on tie order). -/

/-- A dynamically-typed SQLite cell value used for the `hash` column. -/
inductive HVal where
  | ival (i : Int) : HVal
  | sval (s : String) : HVal
deriving DecidableEq

/-- One row of the `startups` table (`init_database`, lines 34-53). -/
structure StartupRow where
  name : String
  website : Option String
  description : Option String
  category : Option String
  founded_date : Option String
  country : Option String
  india_fit_score : Option Int
  india_fit_analysis : Option String
  primary_tier : Option String
  secondary_tiers : Option SecTiers
  source : Option String
  source_url : Option String
  hash : Option HVal
  created_at : Nat
deriving DecidableEq

/-- One row of the `run_metadata` table (lines 56-70). -/
structure RunRow where
  run_id : String
  total_startups_found : Nat
  tier_1_count : Nat
  tier_2_count : Nat
  tier_3_count : Nat
  processing_time_seconds : Option ℚ
  status : String
  report_path : Option String
  run_date : Nat
deriving DecidableEq

structure DBState where
  openable : Bool
  writable : Bool
  startups : List StartupRow
  runs : List RunRow
deriving DecidableEq

/-- The `startup_data` dict handed to `insert_startup`.  The
`india_fit_score` key is read with `.get('india_fit_score', 0)`, so its
presence matters and it is two-level; every other key is read with a
plain `.get`. -/
structure StartupData where
  name : Option String
  website : Option String
  description : Option String
  category : Option String
  founded_date : Option String
  country : Option String
  india_fit_score : Option (Option Int)
  india_fit_analysis : Option String
  primary_tier : Option String
  secondary_tiers : Option SecTiers
  source : Option String
  source_url : Option String
  hash : Option HVal
deriving DecidableEq

/-- Row built by a successful `INSERT INTO startups` at sequence stamp
`t`: `secondary_tiers` lists are serialized with `json.dumps` first
(lines 97-100), a missing `india_fit_score` key defaults to `0`. -/
def mkStartupRow (d : StartupData) (nm : String) (t : Nat) : StartupRow :=
  { name := nm
    website := d.website
    description := d.description
    category := d.category
    founded_date := d.founded_date
    country := d.country
    india_fit_score := match d.india_fit_score with
      | none => some 0
      | some v => v
    india_fit_analysis := d.india_fit_analysis
    primary_tier := d.primary_tier
    secondary_tiers := match d.secondary_tiers with
      | some (.list l) => some (.str (jsonDumps l))
      | other => other
    source := d.source
    source_url := d.source_url
    hash := d.hash
    created_at := t }

/-- Model of `insert_startup` (lines 91-132).  An unopenable or unwritable store
raises inside the `try` and the handler returns `False`.  The schema
declares `name TEXT NOT NULL UNIQUE` and `hash TEXT UNIQUE`; SQLite
raises `IntegrityError` on a `NULL` name, a duplicate name or a duplicate
non-`NULL` hash (`NULL` hashes are exempt from `UNIQUE`), and the handler
returns `False` with the statement rolled back, never touching the
existing row. -/
def insert_startup (db : DBState) (d : StartupData) : Bool × DBState :=
  if ¬db.openable ∨ ¬db.writable then (false, db)
  else
    match d.name with
    | none => (false, db)
    | some nm =>
      if db.startups.any (fun r => r.name = nm) then (false, db)
      else if d.hash.isSome ∧ db.startups.any (fun r => r.hash = d.hash) then (false, db)
      else (true, { db with startups := db.startups ++ [mkStartupRow d nm db.startups.length] })

/-- Model of `get_all_startups` (lines 135-146): `SELECT * FROM startups ORDER BY
created_at DESC`, `[]` on any exception. -/
def get_all_startups (db : DBState) : List StartupRow :=
  if db.openable then db.startups.reverse else []

/-- Model of `get_startups_by_tier` (lines 149-163): rows with
`primary_tier = tier`, `ORDER BY india_fit_score DESC` (SQLite sorts
`NULL` scores last in descending order), `[]` on any exception. -/
def get_startups_by_tier (db : DBState) (tier : String) : List StartupRow :=
  if db.openable then
    ((db.startups.filter (fun r => r.primary_tier = some tier)).mergeSort
      (fun r1 r2 => (r2.india_fit_score.getD (-1)) ≤ (r1.india_fit_score.getD (-1))))
  else []

/-- Model of `DatabaseQueries.get_all_startups` from `utils/db_queries.py` lines
29-50: same query and same catch-all returning `[]`. -/
def dbqGetAllStartups (db : DBState) : List StartupRow :=
  if db.openable then db.startups.reverse else []

/-- Model of `DatabaseQueries.get_startups_by_tier` from `utils/db_queries.py`
lines 52-79. -/
def dbqGetStartupsByTier (db : DBState) (tier : String) : List StartupRow :=
  if db.openable then
    ((db.startups.filter (fun r => r.primary_tier = some tier)).mergeSort
      (fun r1 r2 => (r2.india_fit_score.getD (-1)) ≤ (r1.india_fit_score.getD (-1))))
  else []

/-- The `run_data` dict handed to `insert_run_metadata`; counts are read
with `.get(k, 0)` and status with `.get('status', 'completed')`. -/
structure RunData where
  run_id : Option String
  total_startups_found : Option Nat
  tier_1_count : Option Nat
  tier_2_count : Option Nat
  tier_3_count : Option Nat
  processing_time_seconds : Option ℚ
  status : Option String
  report_path : Option String
deriving DecidableEq

/-- Model of `insert_run_metadata` (lines 166-194): `run_id TEXT UNIQUE NOT NULL`,
any exception (including the `IntegrityError` of a duplicate `run_id`)
is caught and mapped to `False`. -/
def insert_run_metadata (db : DBState) (rd : RunData) : Bool × DBState :=
  if ¬db.openable ∨ ¬db.writable then (false, db)
  else
    match rd.run_id with
    | none => (false, db)
    | some rid =>
      if db.runs.any (fun r => r.run_id = rid) then (false, db)
      else
        (true, { db with runs := db.runs ++
          [{ run_id := rid
             total_startups_found := rd.total_startups_found.getD 0
             tier_1_count := rd.tier_1_count.getD 0
             tier_2_count := rd.tier_2_count.getD 0
             tier_3_count := rd.tier_3_count.getD 0
             processing_time_seconds := rd.processing_time_seconds
             status := rd.status.getD "completed"
             report_path := rd.report_path
             run_date := db.runs.length }] })

/-- Model of `get_latest_run` (lines 197-208): `ORDER BY run_date DESC LIMIT 1`,
`None` on any exception. -/
def get_latest_run (db : DBState) : Option RunRow :=
  if db.openable then db.runs.getLast? else none

/-! ### crew_orchestration.py: aggregation and the run wrapper -/

/-- Count of stored rows whose `primary_tier` is exactly `t`
(`_process_and_save_results` lines 265-267: `s.get('primary_tier') ==
'Tier 1'` etc.; a missing or different tier matches none of the three). -/
def tierCount (all : List StartupRow) (t : String) : Nat :=
  (all.filter (fun s => s.primary_tier = some t)).length

/-- The `run_data` dict built at lines 271-280. -/
def buildRunData (run_id : String) (all : List StartupRow) (ptime : ℚ)
    (rpath : String) : RunData :=
  { run_id := some run_id
    total_startups_found := some all.length
    tier_1_count := some (tierCount all "Tier 1")
    tier_2_count := some (tierCount all "Tier 2")
    tier_3_count := some (tierCount all "Tier 3")
    processing_time_seconds := some ptime
    status := some "completed"
    report_path := some rpath }

/-- Bridge from the orchestration dict to the dict `insert_startup`
reads: always-present keys flatten, conditionally-present keys keep their
presence, and the stored hash is the Python int `hash(name)`. -/
def toDbData (d : OStartupData) : StartupData :=
  { name := some d.name
    website := d.website
    description := d.description
    category := d.category
    founded_date := d.founded_date
    country := d.country
    india_fit_score := d.india_fit_score
    india_fit_analysis := d.india_fit_analysis.join
    primary_tier := d.primary_tier.join
    secondary_tiers := d.secondary_tiers.join
    source := d.source
    source_url := d.source_url
    hash := some (.ival d.hash) }

/-- The body of `_process_and_save_results` (lines 197-293): build and
insert each record (a failed insert only loses the increment of
`inserted_count`), read the whole store back, and write one `run_metadata`
row whose result is discarded.  The surrounding `except Exception` absorbs
any error, and none of the modelled operations raises, so the function
always returns a state. -/
def processAndSaveResults (pyHash : String → Int) (db : DBState)
    (startups : List RawStartup)
    (tier_info : List (String × TierEntry)) (fit_info : List (String × FitEntry))
    (run_id : String) (ptime : ℚ) (rpath : String) : DBState :=
  let db1 := startups.foldl (fun acc s =>
    match buildStartupData pyHash tier_info fit_info s with
    | none => acc
    | some d => (insert_startup acc (toDbData d)).2) db
  let all := get_all_startups db1
  (insert_run_metadata db1 (buildRunData run_id all ptime rpath)).2

/-- The storage-relevant skeleton of `run` (lines 129-195):
`init_database` raises when the store cannot be opened, the `except` of
`run` catches it and reports `'success': False`; once initialization
succeeded, `_process_and_save_results` never lets a storage error escape,
so `run` reports `'success': True`. -/
def runPipeline (pyHash : String → Int) (db : DBState)
    (startups : List RawStartup)
    (tier_info : List (String × TierEntry)) (fit_info : List (String × FitEntry))
    (run_id : String) (ptime : ℚ) (rpath : String) : Bool × DBState :=
  if ¬db.openable then (false, db)
  else (true, processAndSaveResults pyHash db startups tier_info fit_info run_id ptime rpath)

/-! ### Invariants of `find_longest_match`

`BestOK` states that a best triple `(i, j, k)` is either the untouched
initial value `(alo, blo, 0)` or a genuine matching block inside the two
ranges; `J2LenOK` states that the previous-row table holds genuine run
lengths of matches ending at row `row - 1`. -/

def BestOK (a b : List Char) (alo ahi blo bhi : Nat) (t : Nat × Nat × Nat) : Prop :=
  (t.1 = alo ∧ t.2.1 = blo ∧ t.2.2 = 0) ∨
  (alo ≤ t.1 ∧ blo ≤ t.2.1 ∧ t.1 + t.2.2 ≤ ahi ∧ t.2.1 + t.2.2 ≤ bhi ∧
    ∀ u, u < t.2.2 → a.getD (t.1 + u) ' ' = b.getD (t.2.1 + u) ' ')

def J2LenOK (a b : List Char) (alo blo bhi row : Nat) (f : Nat → Nat) : Prop :=
  ∀ j, f j = 0 ∨
    (blo ≤ j ∧ j < bhi ∧ f j ≤ row - alo ∧ f j ≤ j + 1 - blo ∧
      ∀ u, u < f j → a.getD (row - 1 - u) ' ' = b.getD (j - u) ' ')

/-! ## Claims -/

/-- Membership in `positions` characterizes a genuine character hit. -/
lemma positions_mem {b : List Char} {c : Char} {j : Nat} (h : j ∈ positions b c) :
    j < b.length ∧ b.getD j ' ' = c := by
  unfold positions at h
  rw [List.mem_filter, List.mem_range] at h
  refine ⟨h.1, ?_⟩
  have := of_decide_eq_true h.2
  rw [List.getD_eq_getElem?_getD, this]
  rfl

/-- Membership in a `b2j` bucket implies a genuine character hit. -/
lemma b2jGet_mem {b : List Char} {c : Char} {j : Nat} (h : j ∈ b2jGet b c) :
    j < b.length ∧ b.getD j ' ' = c := by
  unfold b2jGet at h
  split at h
  · simp at h
  · exact positions_mem h

/-- One pass of the inner loop preserves both invariants. -/
lemma flmInner_ok (a b : List Char) (alo ahi blo bhi r : Nat)
    (hr : alo ≤ r) (hrh : r < ahi) (f : Nat → Nat)
    (hf : J2LenOK a b alo blo bhi r f) :
    ∀ (js : List Nat) (acc : Nat → Nat) (best : Nat × Nat × Nat),
      (∀ j ∈ js, blo ≤ j ∧ j < bhi ∧ b.getD j ' ' = a.getD r ' ') →
      J2LenOK a b alo blo bhi (r + 1) acc →
      BestOK a b alo ahi blo bhi best →
      J2LenOK a b alo blo bhi (r + 1) (flmInner f r js acc best).1 ∧
        BestOK a b alo ahi blo bhi (flmInner f r js acc best).2 := by
  intro js
  induction js with
  | nil => exact fun acc best _ hacc hbest => ⟨hacc, hbest⟩
  | cons j js ih =>
    intro acc best hjs hacc hbest
    obtain ⟨hjb, hjh, hjc⟩ := hjs j (List.mem_cons_self j js)
    -- facts about the new run length k
    have hk1 : (if j = 0 then 0 else f (j - 1)) + 1 ≤ (r + 1) - alo := by
      split
      · omega
      · rcases hf (j - 1) with h0 | ⟨_, _, hle, _, _⟩ <;> omega
    have hk2 : (if j = 0 then 0 else f (j - 1)) + 1 ≤ j + 1 - blo := by
      split
      case isTrue h => omega
      case isFalse h =>
        rcases hf (j - 1) with h0 | ⟨hb1, _, _, hle, _⟩
        · omega
        · omega
    have hkchars : ∀ u, u < (if j = 0 then 0 else f (j - 1)) + 1 →
        a.getD (r - u) ' ' = b.getD (j - u) ' ' := by
      intro u hu
      cases u with
      | zero =>
        simpa using hjc.symm
      | succ u =>
        have hj0 : ¬ j = 0 := by
          intro h; rw [if_pos h] at hu; omega
        rw [if_neg hj0] at hu
        rcases hf (j - 1) with h0 | ⟨_, _, _, _, hch⟩
        · omega
        · have := hch u (by omega)
          have e1 : r - 1 - u = r - (u + 1) := by omega
          have e2 : j - 1 - u = j - (u + 1) := by omega
          rw [e1, e2] at this
          exact this
    have hstep : flmInner f r (j :: js) acc best
        = flmInner f r js
            (fun j2 => if j2 = j then (if j = 0 then 0 else f (j - 1)) + 1 else acc j2)
            (if best.2.2 < (if j = 0 then 0 else f (j - 1)) + 1 then
              (r + 1 - ((if j = 0 then 0 else f (j - 1)) + 1),
                j + 1 - ((if j = 0 then 0 else f (j - 1)) + 1),
                (if j = 0 then 0 else f (j - 1)) + 1)
            else best) := rfl
    rw [hstep]
    refine ih _ _ (fun j' hj' => hjs j' (List.mem_cons_of_mem j hj')) ?_ ?_
    · -- the updated row table
      intro j2
      by_cases he : j2 = j
      · right
        subst he
        simp only [if_pos rfl]
        refine ⟨hjb, hjh, hk1, hk2, ?_⟩
        intro u hu
        have e : r + 1 - 1 - u = r - u := by omega
        rw [e]
        exact hkchars u hu
      · simp only [if_neg he]
        exact hacc j2
    · -- the updated best triple
      by_cases hlt : best.2.2 < (if j = 0 then 0 else f (j - 1)) + 1
      · rw [if_pos hlt]
        right
        refine ⟨?_, ?_, ?_, ?_, ?_⟩
        · show alo ≤ r + 1 - ((if j = 0 then 0 else f (j - 1)) + 1)
          omega
        · show blo ≤ j + 1 - ((if j = 0 then 0 else f (j - 1)) + 1)
          omega
        · show r + 1 - ((if j = 0 then 0 else f (j - 1)) + 1) +
            ((if j = 0 then 0 else f (j - 1)) + 1) ≤ ahi
          omega
        · show j + 1 - ((if j = 0 then 0 else f (j - 1)) + 1) +
            ((if j = 0 then 0 else f (j - 1)) + 1) ≤ bhi
          omega
        · intro u hu
          show a.getD (r + 1 - ((if j = 0 then 0 else f (j - 1)) + 1) + u) ' '
            = b.getD (j + 1 - ((if j = 0 then 0 else f (j - 1)) + 1) + u) ' '
          have hu' : u < (if j = 0 then 0 else f (j - 1)) + 1 := hu
          have e1 : r + 1 - ((if j = 0 then 0 else f (j - 1)) + 1) + u
              = r - ((if j = 0 then 0 else f (j - 1)) + 1 - 1 - u) := by omega
          have e2 : j + 1 - ((if j = 0 then 0 else f (j - 1)) + 1) + u
              = j - ((if j = 0 then 0 else f (j - 1)) + 1 - 1 - u) := by omega
          rw [e1, e2]
          exact hkchars _ (by omega)
      · rw [if_neg hlt]
        exact hbest

/-- The hash field that survives the whole `buildStartupData` computation
is `pyHash` of the merged name, independent of every other input. -/
lemma buildStartupData_map_hash (pyHash : String → Int)
    (ti : List (String × TierEntry)) (fi : List (String × FitEntry)) (s : RawStartup) :
    (buildStartupData pyHash ti fi s).map OStartupData.hash
      = match pyOrStr s.name s.startup_name with
        | none => none
        | some nm => if nm = "" then none else some (pyHash nm) := by
  unfold buildStartupData
  cases pyOrStr s.name s.startup_name with
  | none => rfl
  | some nm =>
    by_cases h : nm = ""
    · simp [h]
    · simp only [h, if_false]
      cases ti.lookup nm <;> cases fi.lookup nm <;>
        cases s.primary_tier <;> cases s.india_fit_score <;> rfl

/-- The whole dynamic-programming scan preserves the best-triple
invariant. -/
lemma flmOuter_ok (a b : List Char) (alo ahi blo bhi : Nat) :
    ∀ (m s : Nat) (f : Nat → Nat) (best : Nat × Nat × Nat),
      alo ≤ s → s + m ≤ ahi →
      J2LenOK a b alo blo bhi s f →
      BestOK a b alo ahi blo bhi best →
      BestOK a b alo ahi blo bhi (flmOuter a b blo bhi (List.range' s m) f best) := by
  intro m
  induction m with
  | zero => exact fun s f best _ _ _ hbest => hbest
  | succ m ih =>
    intro s f best hs hsm hf hbest
    have hrange : List.range' s (m + 1) = s :: List.range' (s + 1) m := rfl
    rw [hrange]
    have hstep : flmOuter a b blo bhi (s :: List.range' (s + 1) m) f best
        = flmOuter a b blo bhi (List.range' (s + 1) m)
            (flmInner f s ((b2jGet b (a.getD s ' ')).filter
              (fun j => decide (blo ≤ j) && decide (j < bhi))) (fun _ => 0) best).1
            (flmInner f s ((b2jGet b (a.getD s ' ')).filter
              (fun j => decide (blo ≤ j) && decide (j < bhi))) (fun _ => 0) best).2 := rfl
    rw [hstep]
    have hjs : ∀ j ∈ (b2jGet b (a.getD s ' ')).filter
        (fun j => decide (blo ≤ j) && decide (j < bhi)),
        blo ≤ j ∧ j < bhi ∧ b.getD j ' ' = a.getD s ' ' := by
      intro j hj
      rw [List.mem_filter, Bool.and_eq_true, decide_eq_true_eq, decide_eq_true_eq] at hj
      exact ⟨hj.2.1, hj.2.2, (b2jGet_mem hj.1).2⟩
    have h1 := flmInner_ok a b alo ahi blo bhi s hs (by omega) f hf
      ((b2jGet b (a.getD s ' ')).filter (fun j => decide (blo ≤ j) && decide (j < bhi)))
      (fun _ => 0) best hjs (fun j => Or.inl rfl) hbest
    exact ih (s + 1) _ _ (by omega) (by omega) h1.1 h1.2

/-- The left extension loop preserves the best-triple invariant. -/
lemma extendLeft_ok (a b : List Char) (alo ahi blo bhi : Nat) :
    ∀ (i j k : Nat), BestOK a b alo ahi blo bhi (i, j, k) →
      BestOK a b alo ahi blo bhi (extendLeft a b alo blo i j k) := by
  intro i
  induction i with
  | zero => exact fun j k h => h
  | succ i ih =>
    intro j k h
    show BestOK a b alo ahi blo bhi
      (if alo < i + 1 ∧ blo < j ∧ a.getD i ' ' = b.getD (j - 1) ' ' then
        extendLeft a b alo blo i (j - 1) (k + 1) else (i + 1, j, k))
    split
    case isFalse => exact h
    case isTrue hc =>
      apply ih
      rcases h with ⟨h1, h2, h3⟩ | ⟨h1, h2, h3, h4, h5⟩
      · -- the untouched triple has i + 1 = alo, contradicting alo < i + 1
        simp only at h1 h2 h3
        omega
      · simp only at h1 h2 h3 h4 h5
        right
        show alo ≤ i ∧ blo ≤ j - 1 ∧ i + (k + 1) ≤ ahi ∧ j - 1 + (k + 1) ≤ bhi ∧
          ∀ u, u < k + 1 → a.getD (i + u) ' ' = b.getD (j - 1 + u) ' '
        refine ⟨by omega, by omega, by omega, by omega, ?_⟩
        intro u hu
        cases u with
        | zero => simpa using hc.2.2
        | succ u =>
          have e1 : i + (u + 1) = i + 1 + u := by omega
          have e2 : j - 1 + (u + 1) = j + u := by omega
          rw [e1, e2]
          exact h5 u (by exact Nat.lt_of_succ_lt_succ hu)

/-- The right extension loop preserves the best-triple invariant; the
fuel never exceeds the room left of `ahi`. -/
lemma extendRightAux_ok (a b : List Char) (alo ahi blo bhi i j : Nat) :
    ∀ (d k : Nat), d ≤ ahi - (i + k) →
      BestOK a b alo ahi blo bhi (i, j, k) →
      BestOK a b alo ahi blo bhi (i, j, extendRightAux a b bhi i j d k) := by
  intro d
  induction d with
  | zero => exact fun k _ h => h
  | succ d ih =>
    intro k hd h
    show BestOK a b alo ahi blo bhi (i, j,
      if j + k < bhi ∧ a.getD (i + k) ' ' = b.getD (j + k) ' ' then
        extendRightAux a b bhi i j d (k + 1) else k)
    split
    case isFalse => exact h
    case isTrue hc =>
      apply ih (k + 1) (by omega)
      rcases h with ⟨h1, h2, h3⟩ | ⟨h1, h2, h3, h4, h5⟩
      · simp only at h1 h2 h3
        right
        show alo ≤ i ∧ blo ≤ j ∧ i + (k + 1) ≤ ahi ∧ j + (k + 1) ≤ bhi ∧
          ∀ u, u < k + 1 → a.getD (i + u) ' ' = b.getD (j + u) ' '
        refine ⟨by omega, by omega, by omega, by omega, ?_⟩
        intro u hu
        have hu0 : u = 0 := by omega
        subst hu0
        have := hc.2
        rw [h3] at this
        simpa using this
      · simp only at h1 h2 h3 h4 h5
        right
        show alo ≤ i ∧ blo ≤ j ∧ i + (k + 1) ≤ ahi ∧ j + (k + 1) ≤ bhi ∧
          ∀ u, u < k + 1 → a.getD (i + u) ' ' = b.getD (j + u) ' '
        refine ⟨h1, h2, by omega, by omega, ?_⟩
        intro u hu
        rcases Nat.lt_succ_iff_lt_or_eq.mp hu with hu | hu
        · exact h5 u hu
        · subst hu
          exact hc.2

/-- Lemma: `find_longest_match` returns a triple satisfying the invariant. -/
lemma findLongestMatch_ok (a b : List Char) (alo ahi blo bhi : Nat) :
    BestOK a b alo ahi blo bhi (findLongestMatch a b alo ahi blo bhi) := by
  unfold findLongestMatch
  have hdp : BestOK a b alo ahi blo bhi
      (flmOuter a b blo bhi (List.range' alo (ahi - alo)) (fun _ => 0) (alo, blo, 0)) := by
    rcases le_or_lt alo ahi with hle | hlt
    · exact flmOuter_ok a b alo ahi blo bhi (ahi - alo) alo (fun _ => 0) (alo, blo, 0)
        (le_refl _) (by omega) (fun j => Or.inl rfl) (Or.inl ⟨rfl, rfl, rfl⟩)
    · have h0 : ahi - alo = 0 := by omega
      rw [h0]
      exact Or.inl ⟨rfl, rfl, rfl⟩
  have hel := extendLeft_ok a b alo ahi blo bhi _ _ _ hdp
  exact extendRightAux_ok a b alo ahi blo bhi _ _ _ _ (le_refl _) hel

/-- Usable form of `findLongestMatch_ok`: a non-empty result is a genuine
matching block inside both ranges. -/
lemma flm_bounds (a b : List Char) (alo ahi blo bhi : Nat)
    (h : (findLongestMatch a b alo ahi blo bhi).2.2 ≠ 0) :
    alo ≤ (findLongestMatch a b alo ahi blo bhi).1 ∧
    blo ≤ (findLongestMatch a b alo ahi blo bhi).2.1 ∧
    (findLongestMatch a b alo ahi blo bhi).1 +
      (findLongestMatch a b alo ahi blo bhi).2.2 ≤ ahi ∧
    (findLongestMatch a b alo ahi blo bhi).2.1 +
      (findLongestMatch a b alo ahi blo bhi).2.2 ≤ bhi ∧
    ∀ u, u < (findLongestMatch a b alo ahi blo bhi).2.2 →
      a.getD ((findLongestMatch a b alo ahi blo bhi).1 + u) ' '
        = b.getD ((findLongestMatch a b alo ahi blo bhi).2.1 + u) ' ' := by
  have hok := findLongestMatch_ok a b alo ahi blo bhi
  unfold BestOK at hok
  rcases hok with ⟨_, _, h0⟩ | hb
  · exact absurd h0 h
  · exact hb

/-- With enough fuel, the matched total never exceeds either range. -/
lemma msAux_le (a b : List Char) :
    ∀ (fuel alo ahi blo bhi : Nat), (ahi - alo) + (bhi - blo) < fuel →
      matchedSizeAux a b fuel alo ahi blo bhi ≤ min (ahi - alo) (bhi - blo) := by
  intro fuel
  induction fuel with
  | zero => intro alo ahi blo bhi h; omega
  | succ fuel ih =>
    intro alo ahi blo bhi h
    show (if (findLongestMatch a b alo ahi blo bhi).2.2 = 0 then 0
      else (findLongestMatch a b alo ahi blo bhi).2.2 +
        matchedSizeAux a b fuel alo (findLongestMatch a b alo ahi blo bhi).1
          blo (findLongestMatch a b alo ahi blo bhi).2.1 +
        matchedSizeAux a b fuel
          ((findLongestMatch a b alo ahi blo bhi).1 +
            (findLongestMatch a b alo ahi blo bhi).2.2) ahi
          ((findLongestMatch a b alo ahi blo bhi).2.1 +
            (findLongestMatch a b alo ahi blo bhi).2.2) bhi) ≤
      min (ahi - alo) (bhi - blo)
    split
    case isTrue => omega
    case isFalse hk =>
      obtain ⟨h1, h2, h3, h4, _⟩ := flm_bounds a b alo ahi blo bhi hk
      have hl := ih alo (findLongestMatch a b alo ahi blo bhi).1
        blo (findLongestMatch a b alo ahi blo bhi).2.1 (by omega)
      have hr := ih ((findLongestMatch a b alo ahi blo bhi).1 +
          (findLongestMatch a b alo ahi blo bhi).2.2) ahi
        ((findLongestMatch a b alo ahi blo bhi).2.1 +
          (findLongestMatch a b alo ahi blo bhi).2.2) bhi (by omega)
      omega

/-- With enough fuel, a matched total filling both ranges forces the two
ranges to be pointwise equal. -/
lemma msAux_full (a b : List Char) :
    ∀ (fuel alo ahi blo bhi : Nat), (ahi - alo) + (bhi - blo) < fuel →
      matchedSizeAux a b fuel alo ahi blo bhi = ahi - alo →
      matchedSizeAux a b fuel alo ahi blo bhi = bhi - blo →
      ∀ t, t < ahi - alo → a.getD (alo + t) ' ' = b.getD (blo + t) ' ' := by
  intro fuel
  induction fuel with
  | zero => intro alo ahi blo bhi h; omega
  | succ fuel ih =>
    intro alo ahi blo bhi h hA hB
    have hunf : matchedSizeAux a b (fuel + 1) alo ahi blo bhi
        = if (findLongestMatch a b alo ahi blo bhi).2.2 = 0 then 0
          else (findLongestMatch a b alo ahi blo bhi).2.2 +
            matchedSizeAux a b fuel alo (findLongestMatch a b alo ahi blo bhi).1
              blo (findLongestMatch a b alo ahi blo bhi).2.1 +
            matchedSizeAux a b fuel
              ((findLongestMatch a b alo ahi blo bhi).1 +
                (findLongestMatch a b alo ahi blo bhi).2.2) ahi
              ((findLongestMatch a b alo ahi blo bhi).2.1 +
                (findLongestMatch a b alo ahi blo bhi).2.2) bhi := rfl
    rw [hunf] at hA hB
    by_cases hk : (findLongestMatch a b alo ahi blo bhi).2.2 = 0
    · rw [if_pos hk] at hA
      intro t ht
      omega
    · rw [if_neg hk] at hA hB
      obtain ⟨h1, h2, h3, h4, hchars⟩ := flm_bounds a b alo ahi blo bhi hk
      have hl := msAux_le a b fuel alo (findLongestMatch a b alo ahi blo bhi).1
        blo (findLongestMatch a b alo ahi blo bhi).2.1 (by omega)
      have hr := msAux_le a b fuel ((findLongestMatch a b alo ahi blo bhi).1 +
          (findLongestMatch a b alo ahi blo bhi).2.2) ahi
        ((findLongestMatch a b alo ahi blo bhi).2.1 +
          (findLongestMatch a b alo ahi blo bhi).2.2) bhi (by omega)
      -- the two sub-totals fill their own sub-ranges exactly
      have eL1 : matchedSizeAux a b fuel alo (findLongestMatch a b alo ahi blo bhi).1
          blo (findLongestMatch a b alo ahi blo bhi).2.1
          = (findLongestMatch a b alo ahi blo bhi).1 - alo := by omega
      have eL2 : matchedSizeAux a b fuel alo (findLongestMatch a b alo ahi blo bhi).1
          blo (findLongestMatch a b alo ahi blo bhi).2.1
          = (findLongestMatch a b alo ahi blo bhi).2.1 - blo := by omega
      have eR1 : matchedSizeAux a b fuel ((findLongestMatch a b alo ahi blo bhi).1 +
            (findLongestMatch a b alo ahi blo bhi).2.2) ahi
          ((findLongestMatch a b alo ahi blo bhi).2.1 +
            (findLongestMatch a b alo ahi blo bhi).2.2) bhi
          = ahi - ((findLongestMatch a b alo ahi blo bhi).1 +
            (findLongestMatch a b alo ahi blo bhi).2.2) := by omega
      have eR2 : matchedSizeAux a b fuel ((findLongestMatch a b alo ahi blo bhi).1 +
            (findLongestMatch a b alo ahi blo bhi).2.2) ahi
          ((findLongestMatch a b alo ahi blo bhi).2.1 +
            (findLongestMatch a b alo ahi blo bhi).2.2) bhi
          = bhi - ((findLongestMatch a b alo ahi blo bhi).2.1 +
            (findLongestMatch a b alo ahi blo bhi).2.2) := by omega
      have ihL := ih alo (findLongestMatch a b alo ahi blo bhi).1
        blo (findLongestMatch a b alo ahi blo bhi).2.1 (by omega) eL1 eL2
      have ihR := ih ((findLongestMatch a b alo ahi blo bhi).1 +
          (findLongestMatch a b alo ahi blo bhi).2.2) ahi
        ((findLongestMatch a b alo ahi blo bhi).2.1 +
          (findLongestMatch a b alo ahi blo bhi).2.2) bhi (by omega) eR1 eR2
      intro t ht
      by_cases c1 : t < (findLongestMatch a b alo ahi blo bhi).1 - alo
      · exact ihL t c1
      · by_cases c2 : t < (findLongestMatch a b alo ahi blo bhi).1 - alo +
            (findLongestMatch a b alo ahi blo bhi).2.2
        · have e1 : alo + t = (findLongestMatch a b alo ahi blo bhi).1 +
              (t - ((findLongestMatch a b alo ahi blo bhi).1 - alo)) := by omega
          have e2 : blo + t = (findLongestMatch a b alo ahi blo bhi).2.1 +
              (t - ((findLongestMatch a b alo ahi blo bhi).1 - alo)) := by omega
          rw [e1, e2]
          exact hchars _ (by omega)
        · have e1 : alo + t = ((findLongestMatch a b alo ahi blo bhi).1 +
              (findLongestMatch a b alo ahi blo bhi).2.2) +
              (t - ((findLongestMatch a b alo ahi blo bhi).1 - alo) -
                (findLongestMatch a b alo ahi blo bhi).2.2) := by omega
          have e2 : blo + t = ((findLongestMatch a b alo ahi blo bhi).2.1 +
              (findLongestMatch a b alo ahi blo bhi).2.2) +
              (t - ((findLongestMatch a b alo ahi blo bhi).1 - alo) -
                (findLongestMatch a b alo ahi blo bhi).2.2) := by omega
          rw [e1, e2]
          exact ihR _ (by omega)

/-- The left extension loop never fires from its own starting column. -/
lemma extendLeft_start (a b : List Char) (alo blo : Nat) :
    ∀ j k, extendLeft a b alo blo alo j k = (alo, j, k) := by
  intro j k
  cases halo : alo with
  | zero => rfl
  | succ n =>
    show (if n + 1 < n + 1 ∧ blo < j ∧ a.getD n ' ' = b.getD (j - 1) ' ' then
      extendLeft a b (n + 1) blo n (j - 1) (k + 1) else (n + 1, j, k)) = (n + 1, j, k)
    rw [if_neg]
    rintro ⟨hc, -⟩
    omega

/-- An empty row range yields the zero-sized match. -/
lemma flm_empty (a b : List Char) (x y : Nat) :
    (findLongestMatch a b x x y y).2.2 = 0 := by
  unfold findLongestMatch
  rw [Nat.sub_self]
  show (extendRight a b x y (extendLeft a b x y x y 0).1
      (extendLeft a b x y x y 0).2.1 (extendLeft a b x y x y 0).2.2) = 0
  rw [extendLeft_start]
  show extendRightAux a b y x y (x - (x + 0)) 0 = 0
  have e : x - (x + 0) = 0 := by omega
  rw [e]
  rfl

/-- An empty range contributes nothing, at any fuel. -/
lemma msAux_empty (a b : List Char) : ∀ (fuel x y : Nat),
    matchedSizeAux a b fuel x x y y = 0 := by
  intro fuel x y
  cases fuel with
  | zero => rfl
  | succ fuel =>
    show (if (findLongestMatch a b x x y y).2.2 = 0 then 0 else _) = 0
    rw [if_pos (flm_empty a b x y)]

/-- The accumulator of the inner loop is untouched at indices the loop
does not visit. -/
lemma flmInner_acc_not_mem (f : Nat → Nat) (i : Nat) :
    ∀ (js : List Nat) (acc : Nat → Nat) (best : Nat × Nat × Nat) (j0 : Nat),
      j0 ∉ js → ((flmInner f i js acc best).1) j0 = acc j0 := by
  intro js
  induction js with
  | nil => intro acc best j0 _; rfl
  | cons j js ih =>
    intro acc best j0 hj0
    have hne : j0 ≠ j := fun h => hj0 (h ▸ List.mem_cons_self j js)
    have hstep : flmInner f i (j :: js) acc best
        = flmInner f i js
            (fun j2 => if j2 = j then (if j = 0 then 0 else f (j - 1)) + 1 else acc j2)
            (if best.2.2 < (if j = 0 then 0 else f (j - 1)) + 1 then
              (i + 1 - ((if j = 0 then 0 else f (j - 1)) + 1),
                j + 1 - ((if j = 0 then 0 else f (j - 1)) + 1),
                (if j = 0 then 0 else f (j - 1)) + 1)
            else best) := rfl
    rw [hstep, ih _ _ j0 (fun h => hj0 (List.mem_cons_of_mem j h))]
    simp [hne]

/-- The accumulator records the run length of every visited index. -/
lemma flmInner_acc_mem (f : Nat → Nat) (i : Nat) :
    ∀ (js : List Nat) (acc : Nat → Nat) (best : Nat × Nat × Nat) (j0 : Nat),
      j0 ∈ js → js.Nodup →
      ((flmInner f i js acc best).1) j0 = (if j0 = 0 then 0 else f (j0 - 1)) + 1 := by
  intro js
  induction js with
  | nil => intro acc best j0 h; exact absurd h (List.not_mem_nil j0)
  | cons j js ih =>
    intro acc best j0 hmem hnd
    have hstep : flmInner f i (j :: js) acc best
        = flmInner f i js
            (fun j2 => if j2 = j then (if j = 0 then 0 else f (j - 1)) + 1 else acc j2)
            (if best.2.2 < (if j = 0 then 0 else f (j - 1)) + 1 then
              (i + 1 - ((if j = 0 then 0 else f (j - 1)) + 1),
                j + 1 - ((if j = 0 then 0 else f (j - 1)) + 1),
                (if j = 0 then 0 else f (j - 1)) + 1)
            else best) := rfl
    rcases List.mem_cons.mp hmem with he | hmem'
    · subst he
      rw [hstep, flmInner_acc_not_mem f i js _ _ j0 (List.Nodup.not_mem hnd)]
      simp
    · rw [hstep, ih _ _ j0 hmem' (List.Nodup.of_cons hnd)]

/-- The best size never shrinks through the inner loop. -/
lemma flmInner_best_mono (f : Nat → Nat) (i : Nat) :
    ∀ (js : List Nat) (acc : Nat → Nat) (best : Nat × Nat × Nat),
      best.2.2 ≤ ((flmInner f i js acc best).2).2.2 := by
  intro js
  induction js with
  | nil => intro acc best; exact le_refl _
  | cons j js ih =>
    intro acc best
    have hstep : flmInner f i (j :: js) acc best
        = flmInner f i js
            (fun j2 => if j2 = j then (if j = 0 then 0 else f (j - 1)) + 1 else acc j2)
            (if best.2.2 < (if j = 0 then 0 else f (j - 1)) + 1 then
              (i + 1 - ((if j = 0 then 0 else f (j - 1)) + 1),
                j + 1 - ((if j = 0 then 0 else f (j - 1)) + 1),
                (if j = 0 then 0 else f (j - 1)) + 1)
            else best) := rfl
    rw [hstep]
    have hmid : best.2.2 ≤
        (if best.2.2 < (if j = 0 then 0 else f (j - 1)) + 1 then
          (i + 1 - ((if j = 0 then 0 else f (j - 1)) + 1),
            j + 1 - ((if j = 0 then 0 else f (j - 1)) + 1),
            (if j = 0 then 0 else f (j - 1)) + 1)
        else best).2.2 := by
      by_cases hlt : best.2.2 < (if j = 0 then 0 else f (j - 1)) + 1
      · rw [if_pos hlt]
        exact Nat.le_of_lt hlt
      · rw [if_neg hlt]
    exact Nat.le_trans hmid (ih _ _)

/-- After visiting `j0`, the best size dominates the run ending there. -/
lemma flmInner_best_ge (f : Nat → Nat) (i : Nat) :
    ∀ (js : List Nat) (acc : Nat → Nat) (best : Nat × Nat × Nat) (j0 : Nat),
      j0 ∈ js →
      (if j0 = 0 then 0 else f (j0 - 1)) + 1 ≤ ((flmInner f i js acc best).2).2.2 := by
  intro js
  induction js with
  | nil => intro acc best j0 h; exact absurd h (List.not_mem_nil j0)
  | cons j js ih =>
    intro acc best j0 hmem
    have hstep : flmInner f i (j :: js) acc best
        = flmInner f i js
            (fun j2 => if j2 = j then (if j = 0 then 0 else f (j - 1)) + 1 else acc j2)
            (if best.2.2 < (if j = 0 then 0 else f (j - 1)) + 1 then
              (i + 1 - ((if j = 0 then 0 else f (j - 1)) + 1),
                j + 1 - ((if j = 0 then 0 else f (j - 1)) + 1),
                (if j = 0 then 0 else f (j - 1)) + 1)
            else best) := rfl
    rcases List.mem_cons.mp hmem with he | hmem'
    · subst he
      rw [hstep]
      have hmid : (if j0 = 0 then 0 else f (j0 - 1)) + 1 ≤
          (if best.2.2 < (if j0 = 0 then 0 else f (j0 - 1)) + 1 then
            (i + 1 - ((if j0 = 0 then 0 else f (j0 - 1)) + 1),
              j0 + 1 - ((if j0 = 0 then 0 else f (j0 - 1)) + 1),
              (if j0 = 0 then 0 else f (j0 - 1)) + 1)
          else best).2.2 := by
        by_cases hlt : best.2.2 < (if j0 = 0 then 0 else f (j0 - 1)) + 1
        · rw [if_pos hlt]
        · rw [if_neg hlt]
          omega
      exact Nat.le_trans hmid (flmInner_best_mono f i js _ _)
    · rw [hstep]
      exact ih _ _ j0 hmem'

/-- A position belongs to its own character bucket. -/
lemma self_mem_positions (a : List Char) (r : Nat) (hr : r < a.length) :
    r ∈ positions a (a.getD r ' ') := by
  unfold positions
  rw [List.mem_filter, List.mem_range]
  refine ⟨hr, ?_⟩
  rw [decide_eq_true_eq, List.getD_eq_getElem?_getD, List.getElem?_eq_getElem hr]
  rfl

lemma positions_nodup (b : List Char) (c : Char) : (positions b c).Nodup :=
  List.Nodup.filter _ (List.nodup_range b.length)

/-- Below the autojunk threshold no character is purged. -/
lemma b2jGet_short (b : List Char) (h : b.length < 200) (c : Char) :
    b2jGet b c = positions b c := by
  unfold b2jGet isPopular
  rw [if_neg]
  simp only [Bool.and_eq_true, decide_eq_true_eq]
  omega

/-- For `a` compared against itself, below the autojunk threshold, the
scan reaches a best size of at least the diagonal run: after processing
rows `s, s + 1, ..., s + m - 1` starting from a table that carries the
diagonal run of length `s` ending at row `s - 1`, the best size is at
least `s + m`. -/
lemma flmOuter_refl_ge (a : List Char) (h200 : a.length < 200) :
    ∀ (m s : Nat) (f : Nat → Nat) (best : Nat × Nat × Nat),
      s + m ≤ a.length →
      (s = 0 ∨ f (s - 1) = s) →
      1 ≤ m →
      s + m ≤ (flmOuter a a 0 a.length (List.range' s m) f best).2.2 := by
  intro m
  induction m with
  | zero => intro s f best _ _ h1; omega
  | succ m ih =>
    intro s f best hsm hdiag _
    have hrange : List.range' s (m + 1) = s :: List.range' (s + 1) m := rfl
    rw [hrange]
    have hsa : s < a.length := by omega
    -- the filtered bucket of row s contains s itself
    have hjs_mem : s ∈ (b2jGet a (a.getD s ' ')).filter
        (fun j => decide (0 ≤ j) && decide (j < a.length)) := by
      rw [b2jGet_short a h200, List.mem_filter]
      exact ⟨self_mem_positions a s hsa, by simp [hsa]⟩
    have hjs_nodup : ((b2jGet a (a.getD s ' ')).filter
        (fun j => decide (0 ≤ j) && decide (j < a.length))).Nodup := by
      rw [b2jGet_short a h200]
      exact List.Nodup.filter _ (positions_nodup a _)
    have hsval : (if s = 0 then 0 else f (s - 1)) + 1 = s + 1 := by
      rcases hdiag with h0 | hd
      · rw [if_pos h0, h0]
      · rcases Nat.eq_zero_or_pos s with h0 | hpos
        · rw [if_pos h0, h0]
        · rw [if_neg (by omega), hd]
    have hstep : flmOuter a a 0 a.length (s :: List.range' (s + 1) m) f best
        = flmOuter a a 0 a.length (List.range' (s + 1) m)
            (flmInner f s ((b2jGet a (a.getD s ' ')).filter
              (fun j => decide (0 ≤ j) && decide (j < a.length))) (fun _ => 0) best).1
            (flmInner f s ((b2jGet a (a.getD s ' ')).filter
              (fun j => decide (0 ≤ j) && decide (j < a.length))) (fun _ => 0) best).2 := rfl
    rw [hstep]
    cases m with
    | zero =>
      -- no rows left: the inner pass over row s already reached s + 1
      have hge := flmInner_best_ge f s ((b2jGet a (a.getD s ' ')).filter
        (fun j => decide (0 ≤ j) && decide (j < a.length))) (fun _ => 0) best s hjs_mem
      rw [hsval] at hge
      simpa using hge
    | succ m =>
      -- the new table carries the diagonal run of length s + 1 at index s
      have hacc := flmInner_acc_mem f s ((b2jGet a (a.getD s ' ')).filter
        (fun j => decide (0 ≤ j) && decide (j < a.length))) (fun _ => 0) best s
        hjs_mem hjs_nodup
      rw [hsval] at hacc
      have := ih (s + 1)
        (flmInner f s ((b2jGet a (a.getD s ' ')).filter
          (fun j => decide (0 ≤ j) && decide (j < a.length))) (fun _ => 0) best).1
        (flmInner f s ((b2jGet a (a.getD s ' ')).filter
          (fun j => decide (0 ≤ j) && decide (j < a.length))) (fun _ => 0) best).2
        (by omega) (Or.inr (by simpa using hacc)) (by omega)
      omega

/-- Against itself, below the autojunk threshold, `find_longest_match`
over the full ranges returns the whole diagonal. -/
lemma flm_refl (a : List Char) (h200 : a.length < 200) (hne : 1 ≤ a.length) :
    findLongestMatch a a 0 a.length 0 a.length = (0, 0, a.length) := by
  unfold findLongestMatch
  have hsub : a.length - 0 = a.length := by omega
  rw [hsub]
  have hge := flmOuter_refl_ge a h200 a.length 0 (fun _ => 0) (0, 0, 0)
    (by omega) (Or.inl rfl) hne
  simp only [Nat.zero_add] at hge
  have hok := flmOuter_ok a a 0 a.length 0 a.length a.length 0 (fun _ => 0) (0, 0, 0)
    (Nat.le_refl 0) (by omega) (fun j => Or.inl rfl) (Or.inl ⟨rfl, rfl, rfl⟩)
  unfold BestOK at hok
  have hdp : flmOuter a a 0 a.length (List.range' 0 a.length)
      (fun _ => 0) (0, 0, 0) = (0, 0, a.length) := by
    rcases hok with ⟨e1, e2, e3⟩ | ⟨h1, h2, h3, h4, _⟩
    · omega
    · have e1 : (flmOuter a a 0 a.length (List.range' 0 a.length)
          (fun _ => 0) (0, 0, 0)).1 = 0 := by omega
      have e3 : (flmOuter a a 0 a.length (List.range' 0 a.length)
          (fun _ => 0) (0, 0, 0)).2.2 = a.length := by omega
      have e2 : (flmOuter a a 0 a.length (List.range' 0 a.length)
          (fun _ => 0) (0, 0, 0)).2.1 = 0 := by omega
      rw [Prod.ext_iff, Prod.ext_iff]
      exact ⟨e1, e2, e3⟩
  rw [hdp]
  show ((extendLeft a a 0 0 0 0 a.length).1, (extendLeft a a 0 0 0 0 a.length).2.1,
    extendRight a a a.length a.length (extendLeft a a 0 0 0 0 a.length).1
      (extendLeft a a 0 0 0 0 a.length).2.1
      (extendLeft a a 0 0 0 0 a.length).2.2) = (0, 0, a.length)
  rw [extendLeft_start]
  show (0, 0, extendRight a a a.length a.length 0 0 a.length) = (0, 0, a.length)
  unfold extendRight
  have e : a.length - (0 + a.length) = 0 := by omega
  rw [e]
  rfl

/-- Against itself, below the autojunk threshold, everything matches. -/
lemma matchedSize_refl (a : List Char) (h200 : a.length < 200) :
    matchedSize a a = a.length := by
  rcases Nat.eq_zero_or_pos a.length with h0 | hpos
  · unfold matchedSize
    rw [h0]
    exact msAux_empty a a 1 0 0
  · unfold matchedSize
    show (if (findLongestMatch a a 0 a.length 0 a.length).2.2 = 0 then 0
      else (findLongestMatch a a 0 a.length 0 a.length).2.2 +
        matchedSizeAux a a (a.length + a.length) 0
          (findLongestMatch a a 0 a.length 0 a.length).1
          0 (findLongestMatch a a 0 a.length 0 a.length).2.1 +
        matchedSizeAux a a (a.length + a.length)
          ((findLongestMatch a a 0 a.length 0 a.length).1 +
            (findLongestMatch a a 0 a.length 0 a.length).2.2) a.length
          ((findLongestMatch a a 0 a.length 0 a.length).2.1 +
            (findLongestMatch a a 0 a.length 0 a.length).2.2) a.length) = a.length
    rw [flm_refl a h200 hpos]
    rw [if_neg (show ¬((0, 0, a.length) : Nat × Nat × Nat).2.2 = 0 by
      intro h
      have h' : a.length = 0 := h
      omega)]
    show a.length + matchedSizeAux a a (a.length + a.length) 0 0 0 0 +
      matchedSizeAux a a (a.length + a.length) (0 + a.length) a.length
        (0 + a.length) a.length = a.length
    rw [msAux_empty, Nat.zero_add, msAux_empty]
    omega

/-- The ratio of a sequence with itself is 1 below the autojunk
threshold. -/
lemma ratioQ_refl (a : List Char) (h200 : a.length < 200) : ratioQ a a = 1 := by
  unfold ratioQ
  by_cases h0 : a.length + a.length = 0
  · rw [if_pos h0]
  · rw [if_neg h0, matchedSize_refl a h200]
    have hq : ((a.length : ℚ) + a.length) ≠ 0 := by
      intro h
      apply h0
      have : ((a.length + a.length : Nat) : ℚ) = 0 := by push_cast; linarith
      exact_mod_cast this
    field_simp
    ring

/-- The matched total never exceeds either sequence length. -/
lemma matchedSize_le (a b : List Char) :
    matchedSize a b ≤ min a.length b.length := by
  have := msAux_le a b (a.length + b.length + 1) 0 a.length 0 b.length (by omega)
  simpa [matchedSize] using this

lemma ratioQ_nonneg (a b : List Char) : 0 ≤ ratioQ a b := by
  unfold ratioQ
  split
  · norm_num
  · positivity

lemma ratioQ_le_one (a b : List Char) : ratioQ a b ≤ 1 := by
  unfold ratioQ
  split
  · exact le_refl 1
  case isFalse h0 =>
    have hpos : (0 : ℚ) < (a.length : ℚ) + (b.length : ℚ) := by
      have h1 : 0 < a.length + b.length := Nat.pos_of_ne_zero h0
      exact_mod_cast h1
    rw [div_le_one hpos]
    have hle := matchedSize_le a b
    have h2 : 2 * matchedSize a b ≤ a.length + b.length := by omega
    exact_mod_cast h2

/-- A ratio of exactly 1 forces the two sequences to be identical. -/
lemma ratioQ_eq_one (a b : List Char) (h : ratioQ a b = 1) : a = b := by
  unfold ratioQ at h
  split at h
  case isTrue h0 =>
    have ha : a = [] := List.eq_nil_of_length_eq_zero (by omega)
    have hb : b = [] := List.eq_nil_of_length_eq_zero (by omega)
    rw [ha, hb]
  case isFalse h0 =>
    have hpos : (0 : ℚ) < (a.length : ℚ) + (b.length : ℚ) := by
      have h1 : 0 < a.length + b.length := Nat.pos_of_ne_zero h0
      exact_mod_cast h1
    rw [div_eq_one_iff_eq (ne_of_gt hpos)] at h
    have hnat : 2 * matchedSize a b = a.length + b.length := by exact_mod_cast h
    have hle := matchedSize_le a b
    have hMa : matchedSizeAux a b (a.length + b.length + 1) 0 a.length 0 b.length
        = a.length - 0 := by
      have : matchedSize a b = a.length := by omega
      simpa [matchedSize] using this
    have hMb : matchedSizeAux a b (a.length + b.length + 1) 0 a.length 0 b.length
        = b.length - 0 := by
      have : matchedSize a b = b.length := by omega
      simpa [matchedSize] using this
    have hfull := msAux_full a b (a.length + b.length + 1) 0 a.length 0 b.length
      (by omega) hMa hMb
    have hlen : a.length = b.length := by omega
    refine List.ext_getElem hlen ?_
    intro i h1 h2
    have hi : a.getD i ' ' = b.getD i ' ' := by simpa using hfull i (by omega)
    rw [List.getD_eq_getElem a ' ' h1, List.getD_eq_getElem b ' ' h2] at hi
    exact hi

/-- Concrete evaluation: `SequenceMatcher(None, "tide", "diet")` matches
only the single `t`, while the reversed call matches `d` and `e`. -/
lemma similar_tide_diet : similar "tide" "diet" = 1 / 4 := by
  unfold similar ratioQ
  rw [if_neg (by decide),
    show matchedSize (pyLower "tide") (pyLower "diet") = 1 from by decide]
  norm_num [pyLower]

lemma similar_diet_tide : similar "diet" "tide" = 1 / 2 := by
  unfold similar ratioQ
  rw [if_neg (by decide),
    show matchedSize (pyLower "diet") (pyLower "tide") = 2 from by decide]
  norm_num [pyLower]

/-- C3 counterexample: the similarity primitive is not symmetric — the
ratio of `tide` against `diet` is 1/4 but of `diet` against `tide` is
1/2, so `similar(a, b) = similar(b, a)` fails. -/
theorem c3_similar_not_symmetric :
    similar "tide" "diet" ≠ similar "diet" "tide" := by
  rw [similar_tide_diet, similar_diet_tide]
  norm_num

/-- C3 (amended).  The similarity ratio underlying `fuzzy_match` lies in
the closed range `[0, 1]` for all string pairs, equals 1.0 on a string
and itself for strings shorter than the 200-character autojunk threshold,
and equals 1.0 only for strings identical after case folding; it is NOT
symmetric in general (`tide`/`diet` is the counterexample). -/
theorem c3_similarity_properties :
    (∀ s1 s2 : String, 0 ≤ similar s1 s2 ∧ similar s1 s2 ≤ 1) ∧
    (∀ s : String, (pyLower s).length < 200 → similar s s = 1) ∧
    (∀ s1 s2 : String, similar s1 s2 = 1 → pyLower s1 = pyLower s2) ∧
    similar "tide" "diet" = 1 / 4 ∧ similar "diet" "tide" = 1 / 2 := by
  refine ⟨?_, ?_, ?_, similar_tide_diet, similar_diet_tide⟩
  · exact fun s1 s2 => ⟨ratioQ_nonneg _ _, ratioQ_le_one _ _⟩
  · intro s h
    exact ratioQ_refl _ h
  · intro s1 s2 h
    exact ratioQ_eq_one _ _ h

/-- C3 witness: concrete instances of the amended statement — the range
bounds at `tide`/`diet`, reflexivity at the 11-character `TechStartup`,
and the only-if direction at `TIDE` versus `tide`. -/
theorem c3_witness :
    (0 ≤ similar "tide" "diet" ∧ similar "tide" "diet" ≤ 1) ∧
    similar "TechStartup" "TechStartup" = 1 ∧
    pyLower "TIDE" = pyLower "tide" := by
  refine ⟨c3_similarity_properties.1 "tide" "diet", ?_, ?_⟩
  · exact c3_similarity_properties.2.1 "TechStartup" (by decide)
  · refine c3_similarity_properties.2.2.1 "TIDE" "tide" ?_
    unfold similar
    rw [show pyLower "TIDE" = pyLower "tide" from by decide]
    exact ratioQ_refl _ (by decide)

/-- C4.  `is_duplicate` returns true exactly when some reference record
clears the 0.85 similarity threshold against the candidate name — the
first-hit short-circuit cannot change the boolean outcome — and on the
spec boundary examples `TechStartup` matches `Tech Startup` (ratio 22/23)
but not `CompletelyDifferent` (ratio 1/5). -/
theorem c4_is_duplicate_iff :
    (∀ (nm : String) (refs : List ExistingEntry),
      is_duplicate nm refs = true ↔
        ∃ e ∈ refs, DEDUPLICATION_THRESHOLD ≤ similar nm (e.name.getD "")) ∧
    is_duplicate "TechStartup" [⟨some "Tech Startup"⟩] = true ∧
    is_duplicate "TechStartup" [⟨some "CompletelyDifferent"⟩] = false := by
  have hsim1 : similar "TechStartup" "Tech Startup" = 22 / 23 := by
    unfold similar ratioQ
    rw [if_neg (by decide),
      show matchedSize (pyLower "TechStartup") (pyLower "Tech Startup") = 11 from by decide]
    norm_num [pyLower]
  have hsim2 : similar "TechStartup" "CompletelyDifferent" = 1 / 5 := by
    unfold similar ratioQ
    rw [if_neg (by decide),
      show matchedSize (pyLower "TechStartup") (pyLower "CompletelyDifferent") = 3
        from by decide]
    norm_num [pyLower]
  refine ⟨?_, ?_, ?_⟩
  · intro nm refs
    unfold is_duplicate fuzzy_match
    rw [List.any_eq_true]
    constructor
    · rintro ⟨e, he, hd⟩
      exact ⟨e, he, of_decide_eq_true hd⟩
    · rintro ⟨e, he, hd⟩
      exact ⟨e, he, decide_eq_true hd⟩
  · unfold is_duplicate fuzzy_match
    simp only [List.any_cons, List.any_nil, Bool.or_false, Option.getD_some]
    exact decide_eq_true (by rw [hsim1]; unfold DEDUPLICATION_THRESHOLD; norm_num)
  · unfold is_duplicate fuzzy_match
    simp only [List.any_cons, List.any_nil, Bool.or_false, Option.getD_some]
    exact decide_eq_false (by rw [hsim2]; unfold DEDUPLICATION_THRESHOLD; norm_num)

/-- C1.  The hash persisted with each record is `hash(name)`
(`crew_orchestration.py` line 238): it is the same Python-builtin hash
value for any two records with the same merged name, whatever their
website and founded-date fields are, and it is passed to the store
unchanged.  This contradicts the claimed dependence on website and
founded date (the code never calls `generate_hash`, which its own unit
tests exercise as the dedup hash). -/
theorem c1_stored_hash_ignores_website_and_founded_date :
    ∀ (pyHash : String → Int) (ti : List (String × TierEntry))
      (fi : List (String × FitEntry)) (s : RawStartup)
      (w1 u1 f1 d1 w2 u2 f2 d2 : Option String),
      (buildStartupData pyHash ti fi
          { s with website := w1, url := u1, founded_date := f1, date := d1 }).map
            OStartupData.hash
        = (buildStartupData pyHash ti fi
          { s with website := w2, url := u2, founded_date := f2, date := d2 }).map
            OStartupData.hash
      ∧ ∀ d : OStartupData, (toDbData d).hash = some (HVal.ival d.hash) := by
  intro pyHash ti fi s w1 u1 f1 d1 w2 u2 f2 d2
  refine ⟨?_, fun d => rfl⟩
  rw [buildStartupData_map_hash, buildStartupData_map_hash]

/-- Unavailable store: every insert fails without touching the state. -/
lemma insert_startup_unavail (db : DBState) (d : StartupData)
    (h : db.openable = false ∨ db.writable = false) :
    insert_startup db d = (false, db) := by
  unfold insert_startup
  rcases h with h | h <;> simp [h]

/-- A `NULL` name violates `NOT NULL` and the insert fails. -/
lemma insert_startup_name_none (db : DBState) (d : StartupData)
    (hn : d.name = none) : insert_startup db d = (false, db) := by
  unfold insert_startup
  split
  · rfl
  · rw [hn]

/-- A persisted row with the same name makes the insert fail. -/
lemma insert_startup_name_dup (db : DBState) (d : StartupData) (nm : String)
    (hn : d.name = some nm) (h1 : ∃ r ∈ db.startups, r.name = nm) :
    insert_startup db d = (false, db) := by
  unfold insert_startup
  split
  · rfl
  · rw [hn]
    simp only [List.any_eq_true, decide_eq_true_eq]
    rw [if_pos h1]

/-- A persisted row with the same non-`NULL` hash makes the insert fail. -/
lemma insert_startup_hash_dup (db : DBState) (d : StartupData) (nm : String)
    (hn : d.name = some nm) (h2 : d.hash.isSome)
    (h3 : ∃ r ∈ db.startups, r.hash = d.hash) :
    insert_startup db d = (false, db) := by
  unfold insert_startup
  split
  · rfl
  · rw [hn]
    simp only [List.any_eq_true, decide_eq_true_eq]
    split
    · rfl
    · rw [if_pos ⟨h2, h3⟩]

/-- A collision-free insert on an available store appends one row. -/
lemma insert_startup_success (db : DBState) (d : StartupData) (nm : String)
    (ho : db.openable = true) (hw : db.writable = true) (hn : d.name = some nm)
    (h1 : ¬∃ r ∈ db.startups, r.name = nm)
    (h2 : ¬(d.hash.isSome ∧ ∃ r ∈ db.startups, r.hash = d.hash)) :
    insert_startup db d =
      (true, { db with startups := db.startups ++ [mkStartupRow d nm db.startups.length] }) := by
  unfold insert_startup
  rw [hn]
  simp only [ho, hw, List.any_eq_true, decide_eq_true_eq]
  rw [if_neg (by simp), if_neg h1, if_neg h2]

/-- C2.  A record whose `name` or (non-`NULL`) `hash` collides with a
persisted row is rejected: `insert_startup` returns `false` and the store
— in particular the existing row — is untouched.  Inserting the same
record twice adds at most one row: the second attempt always returns
`false` and adds nothing, while a successful insert adds exactly one
row. -/
theorem c2_insert_duplicate_rejected (db : DBState) (d : StartupData) :
    ((∃ r ∈ db.startups, some r.name = d.name) ∨
        (∃ r ∈ db.startups, r.hash.isSome ∧ r.hash = d.hash) →
      insert_startup db d = (false, db)) ∧
    (insert_startup (insert_startup db d).2 d).1 = false ∧
    ((insert_startup (insert_startup db d).2 d).2).startups.length
        = ((insert_startup db d).2).startups.length ∧
    ((insert_startup db d).1 = true →
      ((insert_startup db d).2).startups.length = db.startups.length + 1) := by
  have hdup : (∃ r ∈ db.startups, some r.name = d.name) ∨
      (∃ r ∈ db.startups, r.hash.isSome ∧ r.hash = d.hash) →
      insert_startup db d = (false, db) := by
    intro h
    rcases h with ⟨r, hr, hname⟩ | ⟨r, hr, hsome, hhash⟩
    · exact insert_startup_name_dup db d r.name hname.symm ⟨r, hr, rfl⟩
    · cases hn : d.name with
      | none => exact insert_startup_name_none db d hn
      | some nm =>
        exact insert_startup_hash_dup db d nm hn (hhash ▸ hsome) ⟨r, hr, hhash⟩
  refine ⟨hdup, ?_⟩
  by_cases havail : db.openable = true ∧ db.writable = true
  · cases hn : d.name with
    | none =>
      rw [insert_startup_name_none db d hn, insert_startup_name_none db d hn]
      exact ⟨rfl, rfl, by simp⟩
    | some nm =>
      by_cases h1 : ∃ r ∈ db.startups, r.name = nm
      · rw [insert_startup_name_dup db d nm hn h1, insert_startup_name_dup db d nm hn h1]
        exact ⟨rfl, rfl, by simp⟩
      · by_cases h2 : d.hash.isSome ∧ ∃ r ∈ db.startups, r.hash = d.hash
        · rw [insert_startup_hash_dup db d nm hn h2.1 h2.2,
            insert_startup_hash_dup db d nm hn h2.1 h2.2]
          exact ⟨rfl, rfl, by simp⟩
        · rw [insert_startup_success db d nm havail.1 havail.2 hn h1 h2]
          have hsecond : insert_startup
              { db with startups := db.startups ++ [mkStartupRow d nm db.startups.length] } d
              = (false, { db with
                  startups := db.startups ++ [mkStartupRow d nm db.startups.length] }) := by
            refine insert_startup_name_dup _ d nm hn ⟨mkStartupRow d nm db.startups.length,
              by simp, rfl⟩
          rw [hsecond]
          exact ⟨rfl, rfl, by intro _; simp⟩
  · have h : db.openable = false ∨ db.writable = false := by
      rcases not_and_or.mp havail with h | h
      · exact Or.inl (Bool.not_eq_true _ ▸ h)
      · exact Or.inr (Bool.not_eq_true _ ▸ h)
    rw [insert_startup_unavail db d h, insert_startup_unavail db d h]
    exact ⟨rfl, rfl, by simp⟩

/-- C2 witness: on a concrete store holding one row named `A`, inserting
a record named `A` is rejected, a repeated insert of a fresh record `B`
adds exactly one row in total. -/
theorem c2_witness :
    (insert_startup
        ⟨true, true, [mkStartupRow ⟨some "A", none, none, none, none, none, none, none,
          none, none, none, none, some (.sval "h0")⟩ "A" 0], []⟩
        ⟨some "A", none, none, none, none, none, none, none, none, none, none, none,
          some (.sval "h1")⟩).2.startups.length = 1 ∧
    (insert_startup ⟨true, true, [], []⟩
        ⟨some "B", none, none, none, none, none, none, none, none, none, none, none,
          some (.sval "h2")⟩).2.startups.length = 1 := by
  constructor
  · rw [(c2_insert_duplicate_rejected _ _).1
      (Or.inl ⟨mkStartupRow ⟨some "A", none, none, none, none, none, none, none,
        none, none, none, none, some (.sval "h0")⟩ "A" 0, by simp, rfl⟩)]
    rfl
  · have h := (c2_insert_duplicate_rejected ⟨true, true, [], []⟩
      ⟨some "B", none, none, none, none, none, none, none, none, none, none, none,
        some (.sval "h2")⟩).2.2.2
    have := h (by decide)
    simpa using this

/-- C5.  When the merged name has a tier-map entry, `primary_tier` and
`secondary_tiers` come from the map even if the record embeds its own
`primary_tier`; only without a map entry does an embedded `primary_tier`
key supply them; and a record with a truthy name is never dropped by the
merge, annotations or not. -/
theorem c5_merge_precedence (pyHash : String → Int)
    (ti : List (String × TierEntry)) (fi : List (String × FitEntry))
    (s : RawStartup) (nm : String)
    (hname : pyOrStr s.name s.startup_name = some nm) (hne : nm ≠ "") :
    (∀ e : TierEntry, ti.lookup nm = some e →
      ∃ d, buildStartupData pyHash ti fi s = some d ∧
        d.primary_tier = some e.primary_tier ∧
        d.secondary_tiers = some e.secondary_tiers) ∧
    (ti.lookup nm = none → ∀ v : Option String, s.primary_tier = some v →
      ∃ d, buildStartupData pyHash ti fi s = some d ∧
        d.primary_tier = some v ∧
        d.secondary_tiers = some s.secondary_tiers) ∧
    (∃ d, buildStartupData pyHash ti fi s = some d) := by
  unfold buildStartupData
  rw [hname]
  simp only [hne, if_false]
  refine ⟨?_, ?_, ?_⟩
  · intro e he
    rw [he]
    cases fi.lookup nm <;> cases s.india_fit_score <;> exact ⟨_, rfl, rfl, rfl⟩
  · intro he v hv
    rw [he, hv]
    cases fi.lookup nm <;> cases s.india_fit_score <;> exact ⟨_, rfl, rfl, rfl⟩
  · cases ti.lookup nm <;> cases s.primary_tier <;>
      cases fi.lookup nm <;> cases s.india_fit_score <;> exact ⟨_, rfl⟩

/-- C5 witness: a record named `X` embedding `Tier 2` whose name has a
tier-map entry `Tier 1` merges to `Tier 1`. -/
theorem c5_witness :
    ∃ d, buildStartupData (fun _ => 0)
        [("X", ⟨some "Tier 1", none⟩)] []
        ⟨some "X", none, none, none, none, none, none, none, none, none, none,
          some (some "Tier 2"), none, none, none⟩ = some d ∧
      d.primary_tier = some (some "Tier 1") ∧
      d.secondary_tiers = some none := by
  have h := (c5_merge_precedence (fun _ => 0)
    [("X", ⟨some "Tier 1", none⟩)] []
    ⟨some "X", none, none, none, none, none, none, none, none, none, none,
      some (some "Tier 2"), none, none, none⟩ "X" rfl (by decide)).1
  exact h ⟨some "Tier 1", none⟩ rfl

/-- C6 counterexample: a JSON list containing the non-mapping element `1`
is returned by `parse_startup_data` with that element still present — the
extraction step does not filter non-mapping elements. -/
theorem c6_counterexample :
    parse_startup_data ⟨true, some (.arr [.num 1]), none⟩ = [.num 1] ∧
    isJObj (.num 1) = false :=
  ⟨rfl, rfl⟩

/-- C6 (amended).  Extraction is total, any parse failure (a
`JSONDecodeError` on the direct parse, a regex miss, or a
`JSONDecodeError` on the regex fragment) yields the empty sequence, and
non-mapping elements — which may remain in the returned sequence — are
skipped by the insert loop of `_process_and_save_results`, whose
`isinstance(startup, dict)` filter passes only mappings. -/
theorem c6_parse_failure_and_downstream_filter (t : ParseOutcome) :
    (t.startsWithBracket = true → t.directParse = none → parse_startup_data t = []) ∧
    (t.startsWithBracket = false →
      (t.regexParse = none ∨ t.regexParse = some none) → parse_startup_data t = []) ∧
    (∀ v ∈ (parse_startup_data t).filter isJObj, ∃ o, v = JValue.obj o) := by
  refine ⟨?_, ?_, ?_⟩
  · intro hb hd
    unfold parse_startup_data
    rw [hb, hd]
    rfl
  · intro hb hr
    unfold parse_startup_data
    rw [hb]
    rcases hr with hr | hr <;> rw [hr] <;> rfl
  · intro v hv
    have := (List.mem_filter.mp hv).2
    cases v <;> simp [isJObj] at this ⊢

/-- C6 witness: a failing direct parse of bracket-shaped text yields the
empty record sequence. -/
theorem c6_witness : parse_startup_data ⟨true, none, none⟩ = [] :=
  (c6_parse_failure_and_downstream_filter ⟨true, none, none⟩).1 rfl rfl

/-- A fresh `run_id` on an available store appends exactly the row built
from the `run_data` dict. -/
lemma insert_run_metadata_success (db : DBState) (rd : RunData) (rid : String)
    (ho : db.openable = true) (hw : db.writable = true)
    (hrid : rd.run_id = some rid) (hfresh : ¬∃ r ∈ db.runs, r.run_id = rid) :
    insert_run_metadata db rd = (true, { db with runs := db.runs ++
      [{ run_id := rid
         total_startups_found := rd.total_startups_found.getD 0
         tier_1_count := rd.tier_1_count.getD 0
         tier_2_count := rd.tier_2_count.getD 0
         tier_3_count := rd.tier_3_count.getD 0
         processing_time_seconds := rd.processing_time_seconds
         status := rd.status.getD "completed"
         report_path := rd.report_path
         run_date := db.runs.length }] }) := by
  unfold insert_run_metadata
  rw [if_neg (by simp [ho, hw]), hrid]
  simp only [List.any_eq_true, decide_eq_true_eq]
  rw [if_neg hfresh]

/-- The three tier buckets are disjoint, so their counts add up to the
number of rows carrying one of the three exact tier labels. -/
lemma tierCount_partition (all : List StartupRow) :
    tierCount all "Tier 1" + tierCount all "Tier 2" + tierCount all "Tier 3"
      = (all.filter (fun s => s.primary_tier = some "Tier 1" ∨
          s.primary_tier = some "Tier 2" ∨ s.primary_tier = some "Tier 3")).length := by
  induction all with
  | nil => rfl
  | cons r rest ih =>
    unfold tierCount at ih ⊢
    simp only [List.filter_cons, Bool.decide_or] at ih ⊢
    by_cases h1 : r.primary_tier = some "Tier 1"
    · simp [h1]
      omega
    · by_cases h2 : r.primary_tier = some "Tier 2"
      · simp [h2, h1]
        omega
      · by_cases h3 : r.primary_tier = some "Tier 3"
        · simp [h3, h1, h2]
          omega
        · simp [h1, h2, h3]
          omega

/-- C7.  The run summary built from the post-insert store contents counts
exactly the rows whose `primary_tier` is the literal `Tier 1` / `Tier 2` /
`Tier 3`, reports the full row count as `totalFound`, and rows with any
other or absent tier are excluded from all three counts (the three counts
only reach rows with one of the three labels) while still counted in
`totalFound`; a successful `insert_run_metadata` persists those numbers
verbatim, and on the concrete three-record store with tiers
`Tier 1, Tier 1, Tier 2` the latest run reads back `(2, 1, 0, 3)`. -/
theorem c7_aggregation_counts (all : List StartupRow) (rid : String)
    (pt : ℚ) (rp : String) :
    ((buildRunData rid all pt rp).tier_1_count
        = some ((all.filter (fun s => s.primary_tier = some "Tier 1")).length) ∧
      (buildRunData rid all pt rp).tier_2_count
        = some ((all.filter (fun s => s.primary_tier = some "Tier 2")).length) ∧
      (buildRunData rid all pt rp).tier_3_count
        = some ((all.filter (fun s => s.primary_tier = some "Tier 3")).length) ∧
      (buildRunData rid all pt rp).total_startups_found = some all.length) ∧
    tierCount all "Tier 1" + tierCount all "Tier 2" + tierCount all "Tier 3"
      = (all.filter (fun s => s.primary_tier = some "Tier 1" ∨
          s.primary_tier = some "Tier 2" ∨ s.primary_tier = some "Tier 3")).length ∧
    (∀ db : DBState, db.openable = true → db.writable = true →
      (¬∃ r ∈ db.runs, r.run_id = rid) →
      ∃ row : RunRow,
        (insert_run_metadata db (buildRunData rid all pt rp)).2.runs = db.runs ++ [row] ∧
        row.tier_1_count = tierCount all "Tier 1" ∧
        row.tier_2_count = tierCount all "Tier 2" ∧
        row.tier_3_count = tierCount all "Tier 3" ∧
        row.total_startups_found = all.length) := by
  refine ⟨⟨rfl, rfl, rfl, rfl⟩, tierCount_partition all, ?_⟩
  intro db ho hw hfresh
  rw [insert_run_metadata_success db _ rid ho hw rfl hfresh]
  exact ⟨_, rfl, rfl, rfl, rfl, rfl⟩

/-- C7 witness: the concrete aggregation scenario of the spec — three
stored records with tiers `Tier 1, Tier 1, Tier 2` produce the summary
`tier1Count = 2, tier2Count = 1, tier3Count = 0, totalFound = 3`, and the
row read back by `get_latest_run` carries those numbers. -/
theorem c7_witness :
    ∃ row : RunRow,
      (insert_run_metadata ⟨true, true, [], []⟩
        (buildRunData "run_20240101_000000"
          [⟨"A", none, none, none, none, none, some 10, none, some "Tier 1", none,
              none, none, none, 0⟩,
            ⟨"B", none, none, none, none, none, some 20, none, some "Tier 1", none,
              none, none, none, 1⟩,
            ⟨"C", none, none, none, none, none, some 30, none, some "Tier 2", none,
              none, none, none, 2⟩] 5 "reports")).2.runs = [] ++ [row] ∧
      row.tier_1_count = 2 ∧ row.tier_2_count = 1 ∧ row.tier_3_count = 0 ∧
      row.total_startups_found = 3 := by
  have h := (c7_aggregation_counts
    [⟨"A", none, none, none, none, none, some 10, none, some "Tier 1", none,
        none, none, none, 0⟩,
      ⟨"B", none, none, none, none, none, some 20, none, some "Tier 1", none,
        none, none, none, 1⟩,
      ⟨"C", none, none, none, none, none, some 30, none, some "Tier 2", none,
        none, none, none, 2⟩] "run_20240101_000000" 5 "reports").2.2
    ⟨true, true, [], []⟩ rfl rfl (by simp)
  rcases h with ⟨row, hrow, h1, h2, h3, h4⟩
  refine ⟨row, hrow, ?_, ?_, ?_, ?_⟩
  · rw [h1]; decide
  · rw [h2]; decide
  · rw [h3]; decide
  · rw [h4]; decide

/-- C9 counterexample: with a store that opens but cannot be written (so
`insert_startup` and `insert_run_metadata` both fail), a run over one
valid record still reports success — the storage failure is not
propagated to the caller, so the run is not aborted. -/
theorem c9_counterexample :
    (runPipeline (fun _ => 0) ⟨true, false, [], []⟩
        [⟨some "Acme", none, some "https://acme.com", none, none, none,
          some "2024-01-01", none, none, none, none, none, none, none, none⟩]
        [] [] "run_1" 1 "reports").1 = true ∧
    (runPipeline (fun _ => 0) ⟨true, false, [], []⟩
        [⟨some "Acme", none, some "https://acme.com", none, none, none,
          some "2024-01-01", none, none, none, none, none, none, none, none⟩]
        [] [] "run_1" 1 "reports").2.runs = [] :=
  ⟨rfl, rfl⟩

/-- Unavailable store: the `run_metadata` insert fails without a trace. -/
lemma insert_run_metadata_unavail (db : DBState) (rd : RunData)
    (h : db.openable = false ∨ db.writable = false) :
    insert_run_metadata db rd = (false, db) := by
  unfold insert_run_metadata
  rcases h with h | h <;> simp [h]

/-- On an unwritable store the insert loop leaves the state untouched. -/
lemma processLoop_unwritable (pyHash : String → Int)
    (ti : List (String × TierEntry)) (fi : List (String × FitEntry)) :
    ∀ (ss : List RawStartup) (acc : DBState), acc.writable = false →
      ss.foldl (fun acc s =>
        match buildStartupData pyHash ti fi s with
        | none => acc
        | some d => (insert_startup acc (toDbData d)).2) acc = acc := by
  intro ss
  induction ss with
  | nil => intro acc _; rfl
  | cons s rest ih =>
    intro acc hw
    have hstep : (match buildStartupData pyHash ti fi s with
        | none => acc
        | some d => (insert_startup acc (toDbData d)).2) = acc := by
      cases buildStartupData pyHash ti fi s with
      | none => rfl
      | some d =>
        show (insert_startup acc (toDbData d)).2 = acc
        rw [insert_startup_unavail acc (toDbData d) (Or.inr hw)]
    rw [List.foldl_cons, hstep, ih acc hw]

/-- C9 (amended).  Only a storage failure at initialization aborts the
run: `init_database` re-raises, `run` catches it and reports failure, and
nothing is written.  A store that opens but cannot be written does not
abort the run: every insert silently fails, the run still reports
success, and the attempted `RunSummary` write fails silently, leaving the
store unchanged. -/
theorem c9_storage_failure_handling (pyHash : String → Int) (db : DBState)
    (ss : List RawStartup) (ti : List (String × TierEntry))
    (fi : List (String × FitEntry)) (rid : String) (pt : ℚ) (rp : String) :
    (db.openable = false →
      runPipeline pyHash db ss ti fi rid pt rp = (false, db)) ∧
    (db.openable = true → db.writable = false →
      (runPipeline pyHash db ss ti fi rid pt rp).1 = true ∧
      (runPipeline pyHash db ss ti fi rid pt rp).2 = db) := by
  constructor
  · intro ho
    unfold runPipeline
    rw [if_pos (by simp [ho])]
  · intro ho hw
    unfold runPipeline
    rw [if_neg (by simp [ho])]
    refine ⟨rfl, ?_⟩
    show (processAndSaveResults pyHash db ss ti fi rid pt rp) = db
    unfold processAndSaveResults
    rw [processLoop_unwritable pyHash ti fi ss db hw]
    show (insert_run_metadata db
      (buildRunData rid (get_all_startups db) pt rp)).2 = db
    rw [insert_run_metadata_unavail db _ (Or.inr hw)]

/-- C9 witness: an unopenable store aborts the run with failure reported,
and an unwritable one lets it succeed with the store unchanged. -/
theorem c9_witness :
    runPipeline (fun _ => 0) ⟨false, true, [], []⟩ [] [] [] "run_0" 1 "reports"
        = (false, ⟨false, true, [], []⟩) ∧
    (runPipeline (fun _ => 0) ⟨true, false, [], []⟩ [] [] [] "run_0" 1 "reports").2
        = ⟨true, false, [], []⟩ :=
  ⟨(c9_storage_failure_handling (fun _ => 0) ⟨false, true, [], []⟩ [] [] []
      "run_0" 1 "reports").1 rfl,
    ((c9_storage_failure_handling (fun _ => 0) ⟨true, false, [], []⟩ [] [] []
      "run_0" 1 "reports").2 rfl rfl).2⟩

/-- C10.  When the store cannot be opened (or any other exception escapes
the query body), `get_all_startups` and `get_startups_by_tier` — in both
`database/db.py` and `utils/db_queries.py` — return the empty list
instead of raising, which is exactly what they return on an empty,
healthy store: a failed query is indistinguishable from querying an
empty store. -/
theorem c10_queries_empty_on_storage_error (db : DBState) (tier : String)
    (h : db.openable = false) :
    get_all_startups db = [] ∧
    get_startups_by_tier db tier = [] ∧
    dbqGetAllStartups db = [] ∧
    dbqGetStartupsByTier db tier = [] ∧
    get_all_startups db = get_all_startups ⟨true, true, [], []⟩ ∧
    get_startups_by_tier db tier = get_startups_by_tier ⟨true, true, [], []⟩ tier := by
  unfold get_all_startups get_startups_by_tier dbqGetAllStartups dbqGetStartupsByTier
  simp [h]

/-- C10 witness: a store flagged unopenable while holding a row answers
every query with the empty list. -/
theorem c10_witness :
    get_all_startups ⟨false, true,
        [⟨"A", none, none, none, none, none, none, none, some "Tier 1", none,
          none, none, none, 0⟩], []⟩ = [] ∧
    get_startups_by_tier ⟨false, true,
        [⟨"A", none, none, none, none, none, none, none, some "Tier 1", none,
          none, none, none, 0⟩], []⟩ "Tier 1" = [] := by
  have h := c10_queries_empty_on_storage_error ⟨false, true,
    [⟨"A", none, none, none, none, none, none, none, some "Tier 1", none,
      none, none, none, 0⟩], []⟩ "Tier 1" rfl
  exact ⟨h.1, h.2.1⟩

lemma toNat_ofNat_valid (n : Nat) (h : n.isValidChar) : (Char.ofNat n).toNat = n := by
  unfold Char.ofNat
  rw [dif_pos h]
  rfl

lemma hexVal_hexDig (n : Nat) (h : n < 16) : hexVal (hexDig n) = n := by
  unfold hexVal hexDig
  by_cases h10 : n < 10
  · rw [if_pos h10]
    have e : (Char.ofNat (48 + n)).toNat = 48 + n :=
      toNat_ofNat_valid _ (Or.inl (by omega))
    rw [e, if_pos (by omega)]
    omega
  · rw [if_neg h10]
    have e : (Char.ofNat (87 + n)).toNat = 87 + n :=
      toNat_ofNat_valid _ (Or.inl (by omega))
    rw [e, if_neg (by omega)]
    omega

lemma hexVal_hex4_sum (t : Nat) (h : t < 65536) :
    hexVal (hexDig (t / 4096 % 16)) * 4096 + hexVal (hexDig (t / 256 % 16)) * 256 +
      hexVal (hexDig (t / 16 % 16)) * 16 + hexVal (hexDig (t % 16)) = t := by
  rw [hexVal_hexDig _ (by omega), hexVal_hexDig _ (by omega),
    hexVal_hexDig _ (by omega), hexVal_hexDig _ (by omega)]
  omega

lemma unescChar_lit (c : Char) (h : ¬ c = '\\') (r : List Char) :
    unescChar (c :: r) = some (c, r) := by
  simp only [unescChar]
  rw [if_neg h]

lemma unescChar_u (h1 h2 h3 h4 : Char) (r2 : List Char)
    (hr : ¬(0xd800 ≤ hexVal h1 * 4096 + hexVal h2 * 256 + hexVal h3 * 16 + hexVal h4 ∧
      hexVal h1 * 4096 + hexVal h2 * 256 + hexVal h3 * 16 + hexVal h4 < 0xdc00)) :
    unescChar ('\\' :: 'u' :: h1 :: h2 :: h3 :: h4 :: r2)
      = some (Char.ofNat
          (hexVal h1 * 4096 + hexVal h2 * 256 + hexVal h3 * 16 + hexVal h4), r2) := by
  simp only [unescChar]
  rw [if_neg hr]
  simp

lemma unescChar_u_pair (h1 h2 h3 h4 g1 g2 g3 g4 : Char) (r3 : List Char)
    (hr : 0xd800 ≤ hexVal h1 * 4096 + hexVal h2 * 256 + hexVal h3 * 16 + hexVal h4 ∧
      hexVal h1 * 4096 + hexVal h2 * 256 + hexVal h3 * 16 + hexVal h4 < 0xdc00) :
    unescChar ('\\' :: 'u' :: h1 :: h2 :: h3 :: h4 ::
        '\\' :: 'u' :: g1 :: g2 :: g3 :: g4 :: r3)
      = some (Char.ofNat (0x10000 +
          (hexVal h1 * 4096 + hexVal h2 * 256 + hexVal h3 * 16 + hexVal h4 - 0xd800)
            * 1024 +
          (hexVal g1 * 4096 + hexVal g2 * 256 + hexVal g3 * 16 + hexVal g4 - 0xdc00)),
        r3) := by
  simp only [unescChar]
  rw [if_pos hr]
  simp

/-- The decoder inverts the escape of a single character. -/
lemma unescChar_escChar (c : Char) (rest : List Char) :
    unescChar (pyJsonEscapeChar c ++ rest) = some (c, rest) := by
  unfold pyJsonEscapeChar
  split_ifs with hq hbs hpr hb hf hn hcr ht hbmp
  · subst hq; rfl
  · subst hbs; rfl
  · exact unescChar_lit c hbs rest
  · have hc : Char.ofNat 8 = c := by rw [← hb, Char.ofNat_toNat]
    show unescChar ('\\' :: 'b' :: rest) = some (c, rest)
    rw [show unescChar ('\\' :: 'b' :: rest) = some (Char.ofNat 8, rest) from rfl, hc]
  · have hc : Char.ofNat 12 = c := by rw [← hf, Char.ofNat_toNat]
    show unescChar ('\\' :: 'f' :: rest) = some (c, rest)
    rw [show unescChar ('\\' :: 'f' :: rest) = some (Char.ofNat 12, rest) from rfl, hc]
  · subst hn; rfl
  · subst hcr; rfl
  · subst ht; rfl
  · show unescChar ('\\' :: 'u' :: hexDig (c.toNat / 4096 % 16) ::
      hexDig (c.toNat / 256 % 16) :: hexDig (c.toNat / 16 % 16) ::
      hexDig (c.toNat % 16) :: rest) = some (c, rest)
    have hsum := hexVal_hex4_sum c.toNat hbmp
    have hrange : ¬(0xd800 ≤ hexVal (hexDig (c.toNat / 4096 % 16)) * 4096 +
        hexVal (hexDig (c.toNat / 256 % 16)) * 256 +
        hexVal (hexDig (c.toNat / 16 % 16)) * 16 + hexVal (hexDig (c.toNat % 16)) ∧
        hexVal (hexDig (c.toNat / 4096 % 16)) * 4096 +
        hexVal (hexDig (c.toNat / 256 % 16)) * 256 +
        hexVal (hexDig (c.toNat / 16 % 16)) * 16 + hexVal (hexDig (c.toNat % 16))
          < 0xdc00) := by
      have hval : c.toNat < 55296 ∨ (57343 < c.toNat ∧ c.toNat < 1114112) := c.valid
      rw [hsum]
      omega
    rw [unescChar_u _ _ _ _ rest hrange, hsum, Char.ofNat_toNat]
  · have hval : c.toNat < 55296 ∨ (57343 < c.toNat ∧ c.toNat < 1114112) := c.valid
    have hv2 : c.toNat < 1114112 := by omega
    have hhi : 0xd800 + (c.toNat - 0x10000) / 1024 < 65536 := by omega
    have hlo : 0xdc00 + (c.toNat - 0x10000) % 1024 < 65536 := by
      have := Nat.mod_lt (c.toNat - 0x10000) (show 0 < 1024 by omega)
      omega
    show unescChar ('\\' :: 'u' ::
        hexDig ((0xd800 + (c.toNat - 0x10000) / 1024) / 4096 % 16) ::
        hexDig ((0xd800 + (c.toNat - 0x10000) / 1024) / 256 % 16) ::
        hexDig ((0xd800 + (c.toNat - 0x10000) / 1024) / 16 % 16) ::
        hexDig ((0xd800 + (c.toNat - 0x10000) / 1024) % 16) ::
        '\\' :: 'u' ::
        hexDig ((0xdc00 + (c.toNat - 0x10000) % 1024) / 4096 % 16) ::
        hexDig ((0xdc00 + (c.toNat - 0x10000) % 1024) / 256 % 16) ::
        hexDig ((0xdc00 + (c.toNat - 0x10000) % 1024) / 16 % 16) ::
        hexDig ((0xdc00 + (c.toNat - 0x10000) % 1024) % 16) :: rest)
      = some (c, rest)
    have hsumHi := hexVal_hex4_sum (0xd800 + (c.toNat - 0x10000) / 1024) hhi
    have hsumLo := hexVal_hex4_sum (0xdc00 + (c.toNat - 0x10000) % 1024) hlo
    have hrange : 0xd800 ≤
        hexVal (hexDig ((0xd800 + (c.toNat - 0x10000) / 1024) / 4096 % 16)) * 4096 +
        hexVal (hexDig ((0xd800 + (c.toNat - 0x10000) / 1024) / 256 % 16)) * 256 +
        hexVal (hexDig ((0xd800 + (c.toNat - 0x10000) / 1024) / 16 % 16)) * 16 +
        hexVal (hexDig ((0xd800 + (c.toNat - 0x10000) / 1024) % 16)) ∧
        hexVal (hexDig ((0xd800 + (c.toNat - 0x10000) / 1024) / 4096 % 16)) * 4096 +
        hexVal (hexDig ((0xd800 + (c.toNat - 0x10000) / 1024) / 256 % 16)) * 256 +
        hexVal (hexDig ((0xd800 + (c.toNat - 0x10000) / 1024) / 16 % 16)) * 16 +
        hexVal (hexDig ((0xd800 + (c.toNat - 0x10000) / 1024) % 16)) < 0xdc00 := by
      rw [hsumHi]
      omega
    rw [unescChar_u_pair _ _ _ _ _ _ _ _ rest hrange, hsumHi, hsumLo]
    have e : 0x10000 + (0xd800 + (c.toNat - 0x10000) / 1024 - 0xd800) * 1024 +
        (0xdc00 + (c.toNat - 0x10000) % 1024 - 0xdc00) = c.toNat := by
      have := Nat.div_add_mod (c.toNat - 0x10000) 1024
      omega
    rw [e, Char.ofNat_toNat]

lemma pyJsonEscapeChar_ne_nil (c : Char) : pyJsonEscapeChar c ≠ [] := by
  unfold pyJsonEscapeChar
  split_ifs <;> simp

/-- No escape output starts with an unescaped double quote. -/
lemma pyJsonEscapeChar_head_ne_quote (c d : Char) (ds : List Char)
    (h : pyJsonEscapeChar c = d :: ds) : d ≠ '"' := by
  unfold pyJsonEscapeChar at h
  split_ifs at h with hq hbs hpr hb hf hn hcr ht hbmp
  · obtain ⟨rfl, -⟩ := List.cons.inj h; decide
  · obtain ⟨rfl, -⟩ := List.cons.inj h; decide
  · obtain ⟨rfl, -⟩ := List.cons.inj h; exact hq
  · obtain ⟨rfl, -⟩ := List.cons.inj h; decide
  · obtain ⟨rfl, -⟩ := List.cons.inj h; decide
  · obtain ⟨rfl, -⟩ := List.cons.inj h; decide
  · obtain ⟨rfl, -⟩ := List.cons.inj h; decide
  · obtain ⟨rfl, -⟩ := List.cons.inj h; decide
  · obtain ⟨rfl, -⟩ := List.cons.inj h; decide
  · obtain ⟨rfl, -⟩ := List.cons.inj h; decide

/-- Escaped content followed by a closing quote is prefix-determined: the
content and the remainder are both recoverable. -/
lemma escL_quote_inj : ∀ (u1 u2 r1 r2 : List Char),
    u1.flatMap pyJsonEscapeChar ++ '"' :: r1 = u2.flatMap pyJsonEscapeChar ++ '"' :: r2 →
    u1 = u2 ∧ r1 = r2 := by
  intro u1
  induction u1 with
  | nil =>
    intro u2 r1 r2 h
    cases u2 with
    | nil =>
      simp only [List.flatMap_nil, List.nil_append] at h
      exact ⟨rfl, (List.cons.inj h).2⟩
    | cons c2 t2 =>
      exfalso
      simp only [List.flatMap_nil, List.nil_append, List.flatMap_cons,
        List.append_assoc] at h
      cases hesc : pyJsonEscapeChar c2 with
      | nil => exact pyJsonEscapeChar_ne_nil c2 hesc
      | cons d ds =>
        rw [hesc] at h
        exact pyJsonEscapeChar_head_ne_quote c2 d ds hesc (List.cons.inj h).1.symm
  | cons c1 t1 ih =>
    intro u2 r1 r2 h
    cases u2 with
    | nil =>
      exfalso
      simp only [List.flatMap_nil, List.nil_append, List.flatMap_cons,
        List.append_assoc] at h
      cases hesc : pyJsonEscapeChar c1 with
      | nil => exact pyJsonEscapeChar_ne_nil c1 hesc
      | cons d ds =>
        rw [hesc] at h
        exact pyJsonEscapeChar_head_ne_quote c1 d ds hesc (List.cons.inj h).1
    | cons c2 t2 =>
      simp only [List.flatMap_cons, List.append_assoc] at h
      have h' := congrArg unescChar h
      rw [unescChar_escChar c1 (t1.flatMap pyJsonEscapeChar ++ '"' :: r1),
        unescChar_escChar c2 (t2.flatMap pyJsonEscapeChar ++ '"' :: r2)] at h'
      have hc : c1 = c2 := (Prod.mk.inj (Option.some.inj h')).1
      have htail := (Prod.mk.inj (Option.some.inj h')).2
      obtain ⟨ht12, hr12⟩ := ih t2 r1 r2 htail
      exact ⟨by rw [hc, ht12], hr12⟩

lemma dumpsBody_inj : ∀ l1 l2 : List String, dumpsBody l1 = dumpsBody l2 → l1 = l2 := by
  intro l1
  induction l1 with
  | nil =>
    intro l2 h
    cases l2 with
    | nil => rfl
    | cons s2 t2 => simp [dumpsBody] at h
  | cons s1 t1 ih =>
    intro l2 h
    cases l2 with
    | nil => simp [dumpsBody] at h
    | cons s2 t2 =>
      simp only [dumpsBody] at h
      have htail := (List.cons.inj h).2
      obtain ⟨hs, hx⟩ := escL_quote_inj s1.toList s2.toList _ _ htail
      have hs' : s1 = s2 := by
        cases s1; cases s2
        exact congrArg String.mk (by simpa using hs)
      refine congrArg₂ List.cons hs' ?_
      cases t1 with
      | nil =>
        cases t2 with
        | nil => rfl
        | cons x xs => simp at hx
      | cons y ys =>
        cases t2 with
        | nil => simp at hx
        | cons x xs =>
          simp only [List.isEmpty_cons, if_neg] at hx
          exact ih (x :: xs) (by
            have := (List.cons.inj (List.cons.inj hx).2).2
            exact this)

/-- Injectivity: `json.dumps` on lists of strings is injective: the serialized text
determines the sequence, in particular its order. -/
lemma jsonDumps_inj (l1 l2 : List String) (h : jsonDumps l1 = jsonDumps l2) :
    l1 = l2 := by
  unfold jsonDumps at h
  have h2 : '[' :: dumpsBody l1 ++ [']'] = '[' :: dumpsBody l2 ++ [']'] :=
    congrArg String.data h
  exact dumpsBody_inj l1 l2 (List.append_cancel_right (List.cons.inj h2).2)

/-- C8 counterexample: a record inserted with the ordered sequence
`["Tier 2", "Tier 3"]` reads back with `secondary_tiers` equal to the
serialized JSON text — a string value, not the sequence of strings that
was inserted; no deserialization happens on read. -/
theorem c8_counterexample :
    (get_all_startups (insert_startup ⟨true, true, [], []⟩
        ⟨some "RoundTrip", none, none, none, none, none, none, none, none,
          some (.list ["Tier 2", "Tier 3"]), none, none, some (.sval "h1")⟩).2).map
        (fun r => r.secondary_tiers)
      = [some (SecTiers.str "[\"Tier 2\", \"Tier 3\"]")] ∧
    SecTiers.str "[\"Tier 2\", \"Tier 3\"]" ≠ SecTiers.list ["Tier 2", "Tier 3"] := by
  exact ⟨by decide, by decide⟩

/-- C8 (amended).  A record inserted with a `secondaryTiers` sequence is
stored with the `json.dumps` serialization of that sequence, and
`listAll` returns the row with that serialized text unchanged (newest
first) — still a string, not deserialized; the serialization is
injective, so the text still determines the original sequence and its
order. -/
theorem c8_secondary_tiers_roundtrip (db : DBState) (d : StartupData) (nm : String)
    (l : List String)
    (ho : db.openable = true) (hw : db.writable = true) (hn : d.name = some nm)
    (h1 : ¬∃ r ∈ db.startups, r.name = nm)
    (h2 : ¬(d.hash.isSome ∧ ∃ r ∈ db.startups, r.hash = d.hash))
    (hst : d.secondary_tiers = some (SecTiers.list l)) :
    get_all_startups (insert_startup db d).2
      = mkStartupRow d nm db.startups.length :: get_all_startups db ∧
    (mkStartupRow d nm db.startups.length).secondary_tiers
      = some (SecTiers.str (jsonDumps l)) ∧
    ∀ l1 l2 : List String, jsonDumps l1 = jsonDumps l2 → l1 = l2 := by
  refine ⟨?_, ?_, jsonDumps_inj⟩
  · rw [insert_startup_success db d nm ho hw hn h1 h2]
    unfold get_all_startups
    simp [ho]
  · unfold mkStartupRow
    rw [hst]

/-- C8 witness: the amended round trip at a concrete record — the stored
text is exactly `json.dumps` of the inserted sequence. -/
theorem c8_witness :
    get_all_startups (insert_startup ⟨true, true, [], []⟩
        ⟨some "W8", none, none, none, none, none, none, none, none,
          some (.list ["Tier 3", "Tier 2"]), none, none, some (.sval "h8")⟩).2
      = [mkStartupRow ⟨some "W8", none, none, none, none, none, none, none, none,
          some (.list ["Tier 3", "Tier 2"]), none, none, some (.sval "h8")⟩ "W8" 0] ∧
    (mkStartupRow ⟨some "W8", none, none, none, none, none, none, none, none,
        some (.list ["Tier 3", "Tier 2"]), none, none, some (.sval "h8")⟩ "W8" 0).secondary_tiers
      = some (SecTiers.str "[\"Tier 3\", \"Tier 2\"]") := by
  have h := c8_secondary_tiers_roundtrip ⟨true, true, [], []⟩
    ⟨some "W8", none, none, none, none, none, none, none, none,
      some (.list ["Tier 3", "Tier 2"]), none, none, some (.sval "h8")⟩ "W8"
    ["Tier 3", "Tier 2"] rfl rfl rfl (by simp) (by simp) rfl
  exact ⟨h.1, h.2.1⟩
